import Mathlib

/-!
Verification of the Redfish resource walker (`src/redfish-walker.py`).

The development shallowly embeds the crawler: JSON documents become the
inductive `Json`, the remote service becomes a finite association list from
full URLs to HTTP responses, and the mutually recursive methods
`_crawl_resource` / `_handle_successful_response` / `_crawl_related_resources`
become one fuel-indexed step function `crawlRun` over a `Task` sum type, so
that a concrete crawl evaluates inside the kernel.  The crawler's observable
behaviour is recorded as a list of `Event`s (one `fetch` per HTTP GET issued,
plus failure and save events), and uncaught Python exceptions are modelled by
the `crashed` status.
-/

namespace RedfishWalker

/-- A JSON value as `response.json()` returns it: `str`/`obj`/`arr` mirror
Python `str`/`dict`/`list`; `num`, `boolean` and `null` are the remaining
scalars (their payloads are irrelevant to the crawler, which only ever
branches on `isinstance(_, str/dict/list)`). Object keys are unique, as
produced by the JSON parser. -/
inductive Json where
  | str (s : String)
  | obj (fields : List (String × Json))
  | arr (elems : List Json)
  | num (n : Int)
  | boolean (b : Bool)
  | null

/-- The body of an HTTP response: a parsed JSON document, or `invalid` for a
body that raises `json.JSONDecodeError`. -/
inductive Body where
  | json (doc : Json)
  | invalid

/-- A response of the fake service: an HTTP status code with a body.  A URL
with no entry in the service list models a `requests.RequestException`
(connection failure). -/
inductive Resp where
  | http (status : Nat) (body : Body)

/-- Observable crawl events, in program order:
`fetch u` for every `session.get` issued for full URL `u`; `httpFail u` for a
non-200 status (`_handle_failed_response`); `connFail u` for a transport
exception (`_handle_request_exception`); `parseFail u` for a JSON decode
error (`_handle_json_decode_error`); `save u` for a completed
`_save_data`. -/
inductive Event where
  | fetch (url : String)
  | httpFail (url : String)
  | connFail (url : String)
  | parseFail (url : String)
  | save (url : String)
  deriving DecidableEq

/-- How a (sub)run ended: `normal` control flow, `crashed` for an uncaught
Python exception, `fuelOut` when the step budget of the embedding ran out
(never reached with enough fuel; see the termination theorems). -/
inductive Status where
  | normal
  | crashed
  | fuelOut
  deriving DecidableEq

/-- Result of running a task: the visited set after it, the events it emitted
(in order), and how it ended. -/
structure Res where
  visited : List String
  events : List Event
  status : Status

/-- The pending work of one recursion step of the crawler:
`res u` is a `_crawl_resource(u, visited)` call, `hs u d` the body of
`_handle_successful_response` after a 200 response for `u` parsed to `d`,
`fields fs cur` the `for key, value in data.items()` loop of
`_crawl_related_resources` over the fields `fs` with `current_odata_id = cur`,
and `items es cur` its inner `for item in value` loop over a list. -/
inductive Task where
  | res (resourceUrl : String)
  | hs (fullUrl : String) (data : Json)
  | fields (fs : List (String × Json)) (cur : Json)
  | items (es : List Json) (cur : Json)

/-- Python `needle in hay` on character lists: contiguous substring test. -/
def hasSub : List Char → List Char → Bool
  | n, [] => n.isEmpty
  | n, c :: t => n.isPrefixOf (c :: t) || hasSub n t

/-- Python `needle in hay` on strings (substring containment). -/
def pyIn (needle hay : String) : Bool := hasSub needle.data hay.data

/-- Python `s.startswith(p)`. -/
def pyStartsWith (s p : String) : Bool := p.data.isPrefixOf s.data

/-- Python `s.endswith(p)`. -/
def pyEndsWith (s p : String) : Bool := p.data.isSuffixOf s.data

/-- Python `s.lstrip(chars)`: drop leading characters belonging to the
character SET of `chars` (this is the semantics the code actually gets at
line 105, not prefix removal). -/
def pyLstrip (s chars : String) : String :=
  String.mk (s.data.dropWhile (fun c => chars.data.contains c))

/-- `urllib.parse.urljoin(f"https://{host}/redfish/v1", url)` for the inputs
this program produces: an absolute URL is returned unchanged; a root-relative
path replaces the base path; any other relative reference resolves against
the base URL's directory `/redfish/`.  Every URL the crawler joins is either
already absolute (recursive calls pass the previous `member_url`) or an
absolute path (candidate links start with `/redfish/v1`; the start resource
is an absolute path such as `/redfish/v1/Chassis`). -/
def urljoin (host url : String) : String :=
  if pyStartsWith url "https://" || pyStartsWith url "http://" then url
  else if pyStartsWith url "/" then "https://" ++ host ++ url
  else "https://" ++ host ++ "/redfish/" ++ url

/-- `urllib.parse.urlparse(u).path`: strip the scheme and network location,
and anything from `?` or `#` on. -/
def urlPath (u : String) : String :=
  if pyStartsWith u "https://" then
    String.mk (((u.data.drop 8).dropWhile (fun c => c ≠ '/')).takeWhile
      (fun c => c ≠ '?' && c ≠ '#'))
  else if pyStartsWith u "http://" then
    String.mk (((u.data.drop 7).dropWhile (fun c => c ≠ '/')).takeWhile
      (fun c => c ≠ '?' && c ≠ '#'))
  else
    String.mk (u.data.takeWhile (fun c => c ≠ '?' && c ≠ '#'))

/-- `os.path.join(a, b)` for the shapes `_save_data` produces: an absolute
`b` replaces `a`; otherwise the two are joined with a single separator. -/
def ospJoin (a b : String) : String :=
  if pyStartsWith b "/" then b
  else if a = "" then b
  else if pyEndsWith a "/" then a ++ b
  else a ++ "/" ++ b

/-- The storage location `_save_data` writes for a given full URL (lines
105-108): `os.path.join(output_dir, urlparse(full_url).path.lstrip('/redfish/v1'),
'index.json')`. -/
def savePath (outputDir fullUrl : String) : String :=
  ospJoin (ospJoin outputDir (pyLstrip (urlPath fullUrl) "/redfish/v1")) "index.json"

/-- The scope conjunct of line 88: `current_odata_id in member_url`. -/
def inScope (currentOdataId memberUrl : String) : Bool :=
  pyIn currentOdataId memberUrl

/-- Service lookup: `some r` when the fake server answers `full_url` with
`r`; `none` models a raised `requests.RequestException`. -/
def lookupSvc : List (String × Resp) → String → Option Resp
  | [], _ => none
  | (k, r) :: rest, u => if k = u then some r else lookupSvc rest u

/-- Python `data['@odata.id']` on a dict with unique keys. -/
def lookupField : List (String × Json) → String → Option Json
  | [], _ => none
  | (k, v) :: rest, key => if k = key then some v else lookupField rest key

/-- `visited.add(u)` on the set modelled as a duplicate-free list. -/
def insertV (u : String) (vis : List String) : List String :=
  if u ∈ vis then vis else u :: vis

/-- Occurrences of event `e` in a log. -/
def countE (e : Event) : List Event → Nat
  | [] => 0
  | x :: l => (if x = e then 1 else 0) + countE e l

/-- Whether a list element equals the Python string `'@odata.id'` (the
element test of `'@odata.id' in data` when `data` is a list). -/
def isODataStr : Json → Bool
  | .str s => s = "@odata.id"
  | _ => false

/-- Loop sequencing: run the continuation `k` from the state a loop element
left behind when the element finished normally; a crash (an uncaught Python
exception) or fuel exhaustion aborts the loop and propagates. -/
def seqRes (r1 : Res) (k : List String → Res) : Res :=
  match r1.status with
  | .normal =>
    let r2 := k r1.visited
    ⟨r2.visited, r1.events ++ r2.events, r2.status⟩
  | _ => r1

/-- One step function for the whole crawler (lines 34-95 of the source),
fuel-indexed so that it is structurally recursive and kernel-computable.

* `.res u`: `_crawl_resource` — join the URL, issue the GET, dispatch on the
  outcome: status 200 goes to `.hs`, any other status logs and drops
  (`_handle_failed_response`), a transport exception logs and drops
  (`_handle_request_exception`), and a decode error logs and drops
  (`_handle_json_decode_error`).
* `.hs u d`: `_handle_successful_response` after parsing — save the document
  (an `OSError` of `_save_data` is caught nowhere, hence `crashed`), add `u`
  to `visited`, then evaluate `'@odata.id' in data`: for a dict with the key,
  run the field loop with `current_odata_id = data['@odata.id']`; for a dict
  without it, stop; for a list or string the containment test runs but a
  `True` outcome leads to `data['@odata.id']`, a `TypeError` (`crashed`); for
  any other value `in` itself raises `TypeError` (`crashed`).
* `.fields fs cur`: the `for key, value in data.items()` loop — a string
  value under the key `'@odata.id'` starting with `/redfish/v1` is a
  candidate: if its joined URL is not visited, the scope test
  `current_odata_id in member_url` runs (`TypeError`, hence `crashed`, when
  `cur` is not a string) and an in-scope member is crawled recursively; a
  dict value recurses into `.fields`; a list value runs `.items`; anything
  else is skipped.  A crash or fuel exhaustion inside an element aborts the
  loop, as the Python exception would.
* `.items es cur`: the `for item in value` loop — dict items recurse into
  `.fields`, any other item (including a nested list) is skipped.
-/
def crawlRun (host outputDir : String) (svc : List (String × Resp))
    (sinkFails : String → Bool) : Nat → Task → List String → Res
  | 0, _, vis => ⟨vis, [], .fuelOut⟩
  | fuel + 1, .res resourceUrl, vis =>
    let fullUrl := urljoin host resourceUrl
    match lookupSvc svc fullUrl with
    | none => ⟨vis, [.fetch fullUrl, .connFail fullUrl], .normal⟩
    | some (.http status body) =>
      if status = 200 then
        match body with
        | .invalid => ⟨vis, [.fetch fullUrl, .parseFail fullUrl], .normal⟩
        | .json data =>
          let r := crawlRun host outputDir svc sinkFails fuel (.hs fullUrl data) vis
          ⟨r.visited, .fetch fullUrl :: r.events, r.status⟩
      else ⟨vis, [.fetch fullUrl, .httpFail fullUrl], .normal⟩
  | fuel + 1, .hs fullUrl data, vis =>
    if sinkFails (savePath outputDir fullUrl) then ⟨vis, [], .crashed⟩
    else
      let vis1 := insertV fullUrl vis
      match data with
      | .obj fs =>
        match lookupField fs "@odata.id" with
        | some cur =>
          let r := crawlRun host outputDir svc sinkFails fuel (.fields fs cur) vis1
          ⟨r.visited, .save fullUrl :: r.events, r.status⟩
        | none => ⟨vis1, [.save fullUrl], .normal⟩
      | .arr es =>
        if es.any isODataStr then ⟨vis1, [.save fullUrl], .crashed⟩
        else ⟨vis1, [.save fullUrl], .normal⟩
      | .str s =>
        if pyIn "@odata.id" s then ⟨vis1, [.save fullUrl], .crashed⟩
        else ⟨vis1, [.save fullUrl], .normal⟩
      | _ => ⟨vis1, [.save fullUrl], .crashed⟩
  | fuel + 1, .fields fs cur, vis =>
    match fs with
    | [] => ⟨vis, [], .normal⟩
    | (key, value) :: rest =>
      seqRes
        (match value with
         | .str s =>
           if key = "@odata.id" && pyStartsWith s "/redfish/v1" then
             let memberUrl := urljoin host s
             if memberUrl ∈ vis then ⟨vis, [], .normal⟩
             else
               match cur with
               | .str c =>
                 if inScope c memberUrl then
                   crawlRun host outputDir svc sinkFails fuel (.res memberUrl) vis
                 else ⟨vis, [], .normal⟩
               | _ => ⟨vis, [], .crashed⟩
           else ⟨vis, [], .normal⟩
         | .obj fs1 => crawlRun host outputDir svc sinkFails fuel (.fields fs1 cur) vis
         | .arr es1 => crawlRun host outputDir svc sinkFails fuel (.items es1 cur) vis
         | _ => ⟨vis, [], .normal⟩)
        (fun vis' => crawlRun host outputDir svc sinkFails fuel (.fields rest cur) vis')
  | fuel + 1, .items es cur, vis =>
    match es with
    | [] => ⟨vis, [], .normal⟩
    | item :: rest =>
      seqRes
        (match item with
         | .obj fs1 => crawlRun host outputDir svc sinkFails fuel (.fields fs1 cur) vis
         | _ => ⟨vis, [], .normal⟩)
        (fun vis' => crawlRun host outputDir svc sinkFails fuel (.items rest cur) vis')

/-- `crawl()`: start a session with an empty visited set from the configured
start resource (lines 28-32; the `visited=None` default together with the
lazily created set in `_handle_successful_response` is equivalent to starting
from the empty set). -/
def crawl (host outputDir : String) (svc : List (String × Resp))
    (sinkFails : String → Bool) (fuel : Nat) (startResource : String) : Res :=
  crawlRun host outputDir svc sinkFails fuel (.res startResource) []

/-- The handling of one `(key, value)` pair of the field loop of
`_crawl_related_resources` (a reading of the corresponding arm of
`crawlRun`, split out for reasoning; `crawlRun_fields_cons` states the
definitional agreement). -/
def fieldStep (host outputDir : String) (svc : List (String × Resp))
    (sinkFails : String → Bool) (fuel : Nat) (key : String) (value cur : Json)
    (vis : List String) : Res :=
  match value with
  | .str s =>
    if key = "@odata.id" && pyStartsWith s "/redfish/v1" then
      let memberUrl := urljoin host s
      if memberUrl ∈ vis then ⟨vis, [], .normal⟩
      else
        match cur with
        | .str c =>
          if inScope c memberUrl then
            crawlRun host outputDir svc sinkFails fuel (.res memberUrl) vis
          else ⟨vis, [], .normal⟩
        | _ => ⟨vis, [], .crashed⟩
    else ⟨vis, [], .normal⟩
  | .obj fs1 => crawlRun host outputDir svc sinkFails fuel (.fields fs1 cur) vis
  | .arr es1 => crawlRun host outputDir svc sinkFails fuel (.items es1 cur) vis
  | _ => ⟨vis, [], .normal⟩

/-- The handling of one item of the inner list loop. -/
def itemStep (host outputDir : String) (svc : List (String × Resp))
    (sinkFails : String → Bool) (fuel : Nat) (item cur : Json)
    (vis : List String) : Res :=
  match item with
  | .obj fs1 => crawlRun host outputDir svc sinkFails fuel (.fields fs1 cur) vis
  | _ => ⟨vis, [], .normal⟩

mutual
/-- The candidate links of a JSON value, in document order: the pure
projection of the recursion of `_crawl_related_resources` (lines 85-95) with
the visited/scope/fetch effects stripped.  A candidate is the string value of
an `'@odata.id'` key that starts with `/redfish/v1` (line 86); the recursion
enters dict values (line 90) and dict elements of lists (lines 92-95), and
nothing else. -/
def extractLinks : Json → List String
  | .obj fs => extractLinksF fs
  | .arr es => extractLinksI es
  | _ => []

/-- Candidates of the `for key, value in data.items()` loop. -/
def extractLinksF : List (String × Json) → List String
  | [] => []
  | (key, value) :: rest =>
    (match value with
     | .str s => if key = "@odata.id" && pyStartsWith s "/redfish/v1" then [s] else []
     | .obj fs1 => extractLinksF fs1
     | .arr es1 => extractLinksI es1
     | _ => []) ++ extractLinksF rest

/-- Candidates of the `for item in value` loop over a list value. -/
def extractLinksI : List Json → List String
  | [] => []
  | item :: rest =>
    (match item with
     | .obj fs1 => extractLinksF fs1
     | _ => []) ++ extractLinksI rest
end

mutual
/-- An executable size measure on JSON values, used for fuel bounds. -/
def jsize : Json → Nat
  | .obj fs => 1 + jsizeF fs
  | .arr es => 1 + jsizeI es
  | _ => 1

/-- Size of a field list. -/
def jsizeF : List (String × Json) → Nat
  | [] => 1
  | (_, v) :: rest => 3 + jsize v + jsizeF rest

/-- Size of an element list. -/
def jsizeI : List Json → Nat
  | [] => 1
  | item :: rest => 3 + jsize item + jsizeI rest
end

/-- Session bookkeeping invariants relating the visited set a (sub)run
starts from to its result: the visited set grows monotonically; every new
visited URL was saved; every saved URL is visited afterwards; no URL is
saved twice; and an `httpFail` event only ever reports a URL the service
really answers with a non-200 status. -/
structure Sane (svc : List (String × Resp)) (vis : List String) (r : Res) : Prop where
  mono : ∀ v, v ∈ vis → v ∈ r.visited
  vnew : ∀ v, v ∈ r.visited → v ∈ vis ∨ Event.save v ∈ r.events
  saveVis : ∀ v, Event.save v ∈ r.events → v ∈ r.visited
  saveOnce : ∀ v, countE (Event.save v) r.events ≤ 1
  failTruth : ∀ v, Event.httpFail v ∈ r.events →
    ∃ s b, lookupSvc svc v = some (Resp.http s b) ∧ s ≠ 200

/-- A run never touches a URL that was already registered as visited when it
started: no fetch of it is issued and it is not saved again. -/
def Guarded (vis : List String) (r : Res) : Prop :=
  ∀ v, v ∈ vis → countE (Event.fetch v) r.events = 0 ∧ countE (Event.save v) r.events = 0

/-- The precondition under which a task respects `Guarded`: crawling or
handling a resource presumes it was not already visited (which the
`member_url not in visited` check of line 88 guarantees for every recursive
call, and the empty initial set guarantees for `crawl()`); the loops need
nothing. -/
def taskGuard (host : String) : Task → List String → Prop
  | .res u, vis => urljoin host u ∉ vis
  | .hs u _, vis => u ∉ vis
  | .fields _ _, _ => True
  | .items _ _, _ => True

/-- A service where `/redfish/v1/C` links twice (under two different parent
objects) to `/redfish/v1/C/X`, and `/redfish/v1/C/X` itself is unreachable
(its fetch raises a transport exception). -/
def svcC1 : List (String × Resp) :=
  [("https://h/redfish/v1/C",
    .http 200 (.json (.obj
      [("@odata.id", .str "/redfish/v1/C"),
       ("a", .obj [("@odata.id", .str "/redfish/v1/C/X")]),
       ("b", .obj [("@odata.id", .str "/redfish/v1/C/X")])])))]

/-- A service answering the start resource with HTTP 201 Created and a valid
JSON body. -/
def svcC9 : List (String × Resp) :=
  [("https://h/redfish/v1/C", .http 201 (.json (.obj [("@odata.id", .str "/redfish/v1/C")])))]

/-- A service whose start document has NO top-level `@odata.id` but holds a
navigable `@odata.id` link at a deeper nesting level, and serves that linked
resource. -/
def svcC10 : List (String × Resp) :=
  [("https://h/redfish/v1/C",
    .http 200 (.json (.obj
      [("Members", .arr [.obj [("@odata.id", .str "/redfish/v1/C/1")]])]))),
   ("https://h/redfish/v1/C/1",
    .http 200 (.json (.obj [("@odata.id", .str "/redfish/v1/C/1")])))]

/-- A parsed document the crawler can process without raising `TypeError`: a
JSON object whose `@odata.id` value, when present, is a string. -/
def SafeDoc (d : Json) : Prop :=
  ∃ fs, d = Json.obj fs ∧ ∀ v, lookupField fs "@odata.id" = some v → ∃ c, v = Json.str c

/-- Every parsed body the service can return is a `SafeDoc`. -/
def safeSvc (svc : List (String × Resp)) : Prop :=
  ∀ p ∈ svc, ∀ s d, p.2 = Resp.http s (Body.json d) → SafeDoc d

/-- The task precondition for crash-freedom: loop tasks carry a string
`current_odata_id`, a handler task carries a safe document. -/
def taskSafe : Task → Prop
  | .res _ => True
  | .hs _ d => SafeDoc d
  | .fields _ cur => ∃ c, cur = Json.str c
  | .items _ cur => ∃ c, cur = Json.str c

/-- A one-document service with a well-formed object document, used to
exercise the persistence-failure path. -/
def svcC7 : List (String × Resp) :=
  [("https://h/redfish/v1/C",
    .http 200 (.json (.obj [("@odata.id", .str "/redfish/v1/C")])))]

/-- The URLs the fake service answers at all. -/
def domUrls (svc : List (String × Resp)) : List String := svc.map Prod.fst

/-- How many service URLs are not yet visited: the quantity every successful
fetch strictly decreases, which bounds the crawl. -/
def nFresh (svc : List (String × Resp)) (vis : List String) : Nat :=
  ((domUrls svc).filter (fun u => decide (u ∉ vis))).length

/-- Size of the parsed document of a response (0 when there is none). -/
def respDocSize : Resp → Nat
  | .http _ (.json d) => jsize d
  | _ => 0

/-- An upper bound on the size of any document the service serves. -/
def maxDoc (svc : List (String × Resp)) : Nat :=
  svc.foldr (fun p m => max (respDocSize p.2) m) 0

/-- Fuel sufficient for any crawl of `svc` (see `crawlRun_no_fuelOut`). -/
def fuelBound (svc : List (String × Resp)) : Nat :=
  (maxDoc svc + 4) * (svc.length + 1) + 2

/-- The fuel-sufficiency precondition of a task, used to prove that a crawl
with `fuelBound` fuel never exhausts its budget (i.e. the Python recursion
terminates). -/
def termCond (host : String) (svc : List (String × Resp)) :
    Nat → Task → List String → Prop
  | fuel, .res u, vis =>
    urljoin host u ∉ vis ∧ (maxDoc svc + 4) * (nFresh svc vis + 1) + 2 ≤ fuel
  | fuel, .hs u d, vis =>
    u ∉ vis ∧ (∃ s, lookupSvc svc u = some (.http s (.json d))) ∧
      (maxDoc svc + 4) * (nFresh svc vis + 1) + 1 ≤ fuel
  | fuel, .fields fs _, vis =>
    jsizeF fs + (maxDoc svc + 4) * (nFresh svc vis + 1) + 2 ≤ fuel
  | fuel, .items es _, vis =>
    jsizeI es + (maxDoc svc + 4) * (nFresh svc vis + 1) + 2 ≤ fuel

/-- A cyclic service: `/redfish/v1/C/B/A` links to `/redfish/v1/C/B` and
`/redfish/v1/C/B` links back to `/redfish/v1/C/B/A`, each link passing the
scope filter (A's document declares the ancestor identifier `/redfish/v1/C`,
which is a substring of B's URL; B's identifier `/redfish/v1/C/B` is a
substring of A's URL); `/redfish/v1/C` itself is a leaf. -/
def svcC2 : List (String × Resp) :=
  [("https://h/redfish/v1/C/B/A",
    .http 200 (.json (.obj
      [("@odata.id", .str "/redfish/v1/C"),
       ("Link", .obj [("@odata.id", .str "/redfish/v1/C/B")])]))),
   ("https://h/redfish/v1/C/B",
    .http 200 (.json (.obj
      [("@odata.id", .str "/redfish/v1/C/B"),
       ("Link", .obj [("@odata.id", .str "/redfish/v1/C/B/A")])]))),
   ("https://h/redfish/v1/C",
    .http 200 (.json (.obj [("@odata.id", .str "/redfish/v1/C")])))]

/-- The candidate links the code's recursion can reach inside a JSON value:
an `@odata.id` string field with the `/redfish/v1` prefix, found either
directly, or through a nested object value, or through an object that is a
DIRECT element of an array value (lines 90-95 recurse into dict values and
into dict items of lists, and into nothing else). -/
inductive FindsLink : Json → String → Prop where
  | here {fs : List (String × Json)} {s : String} :
      ("@odata.id", Json.str s) ∈ fs → pyStartsWith s "/redfish/v1" = true →
      FindsLink (.obj fs) s
  | inField {fs : List (String × Json)} {k : String} {v : Json} {s : String} :
      (k, v) ∈ fs → FindsLink v s → FindsLink (.obj fs) s
  | inItem {es : List Json} {fs : List (String × Json)} {s : String} :
      Json.obj fs ∈ es → FindsLink (.obj fs) s → FindsLink (.arr es) s

/-- Modelled from the spec (§4.2's words, for comparison with the code's
`extractLinks`): candidate links found when the walk recurses into EVERY
nested object or array, continuing to emit candidates at any depth —
including through arrays nested directly within arrays. -/
inductive SpecFindsLink : Json → String → Prop where
  | here {fs : List (String × Json)} {s : String} :
      ("@odata.id", Json.str s) ∈ fs → pyStartsWith s "/redfish/v1" = true →
      SpecFindsLink (.obj fs) s
  | inField {fs : List (String × Json)} {k : String} {v : Json} {s : String} :
      (k, v) ∈ fs → SpecFindsLink v s → SpecFindsLink (.obj fs) s
  | inItem {es : List Json} {v : Json} {s : String} :
      v ∈ es → SpecFindsLink v s → SpecFindsLink (.arr es) s

/-- A document holding a navigable candidate link inside an array nested
directly within an array. -/
def docC4 : Json :=
  .obj [("@odata.id", .str "/redfish/v1/C"),
        ("Nested", .arr [.arr [.obj [("@odata.id", .str "/redfish/v1/C/X")]]])]

/-- A service serving `docC4` at the start resource and also serving the
resource the array-in-array candidate points to. -/
def svcC4 : List (String × Resp) :=
  [("https://h/redfish/v1/C", .http 200 (.json docC4)),
   ("https://h/redfish/v1/C/X",
    .http 200 (.json (.obj [("@odata.id", .str "/redfish/v1/C/X")])))]

/-- The resource URLs a crawl of `svc` from `startResource` can discover:
the start URL, and the resolved URL of any candidate link of a document
served (with status 200 and valid JSON) at an already reachable URL. -/
inductive Reach (host : String) (svc : List (String × Resp)) (start : String) :
    String → Prop where
  | base : Reach host svc start (urljoin host start)
  | step {u : String} {d : Json} {s : String} :
      Reach host svc start u →
      lookupSvc svc u = some (.http 200 (.json d)) →
      s ∈ extractLinks d →
      Reach host svc start (urljoin host s)

/-- The premises of the exactly-N-fetches claim: every served resource is an
HTTP 200 JSON object carrying a string `@odata.id`, and each of its
candidate links resolves to a URL the service serves (all fetches succeed)
and passes the scope filter against the document's own identifier (all links
in scope). -/
def C8Hyp (host : String) (svc : List (String × Resp)) : Prop :=
  ∀ p ∈ svc, ∃ fs cur,
    p.2 = Resp.http 200 (.json (.obj fs)) ∧
    lookupField fs "@odata.id" = some (.str cur) ∧
    (∀ s ∈ extractLinksF fs,
      (lookupSvc svc (urljoin host s)).isSome ∧ inScope cur (urljoin host s) = true)

/-- Task precondition of the exactness argument: resources being crawled are
reachable and served; loops walk fields whose candidates are all served, in
scope, and reachable. -/
def exTask (host : String) (svc : List (String × Resp)) (start : String) :
    Task → Prop
  | .res u => Reach host svc start (urljoin host u) ∧
      (lookupSvc svc (urljoin host u)).isSome
  | .hs u d => Reach host svc start u ∧
      lookupSvc svc u = some (.http 200 (.json d))
  | .fields fs cur => ∃ c, cur = Json.str c ∧ ∀ s ∈ extractLinksF fs,
      (lookupSvc svc (urljoin host s)).isSome ∧ inScope c (urljoin host s) = true ∧
      Reach host svc start (urljoin host s)
  | .items es cur => ∃ c, cur = Json.str c ∧ ∀ s ∈ extractLinksI es,
      (lookupSvc svc (urljoin host s)).isSome ∧ inScope c (urljoin host s) = true ∧
      Reach host svc start (urljoin host s)

/-- How many saves a task performs for a URL beyond the fetch/save pairs of
the crawls nested inside it: the successful-response handler saves its own
URL (whose fetch was counted by its caller). -/
def savedHere : Task → String → Nat
  | .hs u _, v => if v = u then 1 else 0
  | _, _ => 0

/-- What a normally finished task guarantees about the visited set: a
crawled resource is registered, a handled one is registered with all its
candidates, a finished loop has all its candidates registered. -/
def doneTask (host : String) : Task → List String → Prop
  | .res u, vis => urljoin host u ∈ vis
  | .hs u d, vis => u ∈ vis ∧ ∀ s ∈ extractLinks d, urljoin host s ∈ vis
  | .fields fs _, vis => ∀ s ∈ extractLinksF fs, urljoin host s ∈ vis
  | .items es _, vis => ∀ s ∈ extractLinksI es, urljoin host s ∈ vis

/-- Closure of a log with respect to a visited set: every saved resource's
candidates are all registered. -/
def ClosedEv (host : String) (svc : List (String × Resp)) (evts : List Event)
    (vis : List String) : Prop :=
  ∀ v fs2, Event.save v ∈ evts →
    lookupSvc svc v = some (.http 200 (.json (.obj fs2))) →
    ∀ s ∈ extractLinksF fs2, urljoin host s ∈ vis

/-- A purely acyclic three-resource service: the collection `/redfish/v1/K`
links to the two leaves `/redfish/v1/K/a` and `/redfish/v1/K/b`; every fetch
succeeds and every link is in scope. -/
def svcC8 : List (String × Resp) :=
  [("https://h/redfish/v1/K",
    .http 200 (.json (.obj
      [("@odata.id", .str "/redfish/v1/K"),
       ("A", .obj [("@odata.id", .str "/redfish/v1/K/a")]),
       ("B", .obj [("@odata.id", .str "/redfish/v1/K/b")])]))),
   ("https://h/redfish/v1/K/a",
    .http 200 (.json (.obj [("@odata.id", .str "/redfish/v1/K/a")]))),
   ("https://h/redfish/v1/K/b",
    .http 200 (.json (.obj [("@odata.id", .str "/redfish/v1/K/b")])))]

/-! ### Step lemmas: one unfolding of `crawlRun` per source branch -/

theorem crawlRun_zero (host outputDir : String) (svc : List (String × Resp))
    (sinkFails : String → Bool) (t : Task) (vis : List String) :
    crawlRun host outputDir svc sinkFails 0 t vis = ⟨vis, [], .fuelOut⟩ := rfl

theorem crawlRun_res_none (host outputDir : String) (svc : List (String × Resp))
    (sinkFails : String → Bool) (fuel : Nat) (u : String) (vis : List String)
    (h : lookupSvc svc (urljoin host u) = none) :
    crawlRun host outputDir svc sinkFails (fuel + 1) (.res u) vis
      = ⟨vis, [.fetch (urljoin host u), .connFail (urljoin host u)], .normal⟩ := by
  simp [crawlRun, h]

theorem crawlRun_res_non200 (host outputDir : String) (svc : List (String × Resp))
    (sinkFails : String → Bool) (fuel : Nat) (u : String) (vis : List String)
    (status : Nat) (body : Body)
    (h : lookupSvc svc (urljoin host u) = some (.http status body))
    (hs : status ≠ 200) :
    crawlRun host outputDir svc sinkFails (fuel + 1) (.res u) vis
      = ⟨vis, [.fetch (urljoin host u), .httpFail (urljoin host u)], .normal⟩ := by
  simp [crawlRun, h, hs]

theorem crawlRun_res_invalid (host outputDir : String) (svc : List (String × Resp))
    (sinkFails : String → Bool) (fuel : Nat) (u : String) (vis : List String)
    (h : lookupSvc svc (urljoin host u) = some (.http 200 .invalid)) :
    crawlRun host outputDir svc sinkFails (fuel + 1) (.res u) vis
      = ⟨vis, [.fetch (urljoin host u), .parseFail (urljoin host u)], .normal⟩ := by
  simp [crawlRun, h]

theorem crawlRun_res_json (host outputDir : String) (svc : List (String × Resp))
    (sinkFails : String → Bool) (fuel : Nat) (u : String) (vis : List String)
    (d : Json) (h : lookupSvc svc (urljoin host u) = some (.http 200 (.json d))) :
    crawlRun host outputDir svc sinkFails (fuel + 1) (.res u) vis
      = ⟨(crawlRun host outputDir svc sinkFails fuel (.hs (urljoin host u) d) vis).visited,
         .fetch (urljoin host u)
           :: (crawlRun host outputDir svc sinkFails fuel (.hs (urljoin host u) d) vis).events,
         (crawlRun host outputDir svc sinkFails fuel (.hs (urljoin host u) d) vis).status⟩ := by
  simp [crawlRun, h]

theorem crawlRun_hs_crash (host outputDir : String) (svc : List (String × Resp))
    (sinkFails : String → Bool) (fuel : Nat) (u : String) (d : Json) (vis : List String)
    (h : sinkFails (savePath outputDir u) = true) :
    crawlRun host outputDir svc sinkFails (fuel + 1) (.hs u d) vis
      = ⟨vis, [], .crashed⟩ := by
  simp [crawlRun, h]

theorem crawlRun_hs_obj_some (host outputDir : String) (svc : List (String × Resp))
    (sinkFails : String → Bool) (fuel : Nat) (u : String) (fs : List (String × Json))
    (cur : Json) (vis : List String)
    (h : sinkFails (savePath outputDir u) = false)
    (hf : lookupField fs "@odata.id" = some cur) :
    crawlRun host outputDir svc sinkFails (fuel + 1) (.hs u (.obj fs)) vis
      = ⟨(crawlRun host outputDir svc sinkFails fuel (.fields fs cur) (insertV u vis)).visited,
         .save u
           :: (crawlRun host outputDir svc sinkFails fuel
                (.fields fs cur) (insertV u vis)).events,
         (crawlRun host outputDir svc sinkFails fuel
            (.fields fs cur) (insertV u vis)).status⟩ := by
  simp [crawlRun, h, hf]

theorem crawlRun_hs_obj_none (host outputDir : String) (svc : List (String × Resp))
    (sinkFails : String → Bool) (fuel : Nat) (u : String) (fs : List (String × Json))
    (vis : List String)
    (h : sinkFails (savePath outputDir u) = false)
    (hf : lookupField fs "@odata.id" = none) :
    crawlRun host outputDir svc sinkFails (fuel + 1) (.hs u (.obj fs)) vis
      = ⟨insertV u vis, [.save u], .normal⟩ := by
  simp [crawlRun, h, hf]

theorem crawlRun_hs_arr (host outputDir : String) (svc : List (String × Resp))
    (sinkFails : String → Bool) (fuel : Nat) (u : String) (es : List Json)
    (vis : List String)
    (h : sinkFails (savePath outputDir u) = false) :
    crawlRun host outputDir svc sinkFails (fuel + 1) (.hs u (.arr es)) vis
      = ⟨insertV u vis, [.save u], if es.any isODataStr then .crashed else .normal⟩ := by
  by_cases ha : es.any isODataStr <;> simp [crawlRun, h, ha]

theorem crawlRun_hs_str (host outputDir : String) (svc : List (String × Resp))
    (sinkFails : String → Bool) (fuel : Nat) (u s : String) (vis : List String)
    (h : sinkFails (savePath outputDir u) = false) :
    crawlRun host outputDir svc sinkFails (fuel + 1) (.hs u (.str s)) vis
      = ⟨insertV u vis, [.save u], if pyIn "@odata.id" s then .crashed else .normal⟩ := by
  by_cases ha : pyIn "@odata.id" s <;> simp [crawlRun, h, ha]

theorem crawlRun_hs_num (host outputDir : String) (svc : List (String × Resp))
    (sinkFails : String → Bool) (fuel : Nat) (u : String) (n : Int) (vis : List String)
    (h : sinkFails (savePath outputDir u) = false) :
    crawlRun host outputDir svc sinkFails (fuel + 1) (.hs u (.num n)) vis
      = ⟨insertV u vis, [.save u], .crashed⟩ := by
  simp [crawlRun, h]

theorem crawlRun_hs_boolean (host outputDir : String) (svc : List (String × Resp))
    (sinkFails : String → Bool) (fuel : Nat) (u : String) (b : Bool) (vis : List String)
    (h : sinkFails (savePath outputDir u) = false) :
    crawlRun host outputDir svc sinkFails (fuel + 1) (.hs u (.boolean b)) vis
      = ⟨insertV u vis, [.save u], .crashed⟩ := by
  simp [crawlRun, h]

theorem crawlRun_hs_null (host outputDir : String) (svc : List (String × Resp))
    (sinkFails : String → Bool) (fuel : Nat) (u : String) (vis : List String)
    (h : sinkFails (savePath outputDir u) = false) :
    crawlRun host outputDir svc sinkFails (fuel + 1) (.hs u .null) vis
      = ⟨insertV u vis, [.save u], .crashed⟩ := by
  simp [crawlRun, h]

theorem crawlRun_fields_nil (host outputDir : String) (svc : List (String × Resp))
    (sinkFails : String → Bool) (fuel : Nat) (cur : Json) (vis : List String) :
    crawlRun host outputDir svc sinkFails (fuel + 1) (.fields [] cur) vis
      = ⟨vis, [], .normal⟩ := rfl

theorem crawlRun_fields_cons (host outputDir : String) (svc : List (String × Resp))
    (sinkFails : String → Bool) (fuel : Nat) (key : String) (value cur : Json)
    (rest : List (String × Json)) (vis : List String) :
    crawlRun host outputDir svc sinkFails (fuel + 1) (.fields ((key, value) :: rest) cur) vis
      = seqRes (fieldStep host outputDir svc sinkFails fuel key value cur vis)
          (fun vis' => crawlRun host outputDir svc sinkFails fuel (.fields rest cur) vis') := by
  cases value <;> rfl

theorem crawlRun_items_nil (host outputDir : String) (svc : List (String × Resp))
    (sinkFails : String → Bool) (fuel : Nat) (cur : Json) (vis : List String) :
    crawlRun host outputDir svc sinkFails (fuel + 1) (.items [] cur) vis
      = ⟨vis, [], .normal⟩ := rfl

theorem crawlRun_items_cons (host outputDir : String) (svc : List (String × Resp))
    (sinkFails : String → Bool) (fuel : Nat) (item cur : Json)
    (rest : List Json) (vis : List String) :
    crawlRun host outputDir svc sinkFails (fuel + 1) (.items (item :: rest) cur) vis
      = seqRes (itemStep host outputDir svc sinkFails fuel item cur vis)
          (fun vis' => crawlRun host outputDir svc sinkFails fuel (.items rest cur) vis') := by
  cases item <;> rfl


/-! ### Basic facts about the string model -/

theorem hasSub_iff (n h : List Char) : hasSub n h = true ↔ n <:+: h := by
  induction h with
  | nil => simp [hasSub, List.isEmpty_iff, List.infix_nil]
  | cons c t ih =>
    simp only [hasSub, Bool.or_eq_true, List.isPrefixOf_iff_prefix, ih,
      List.infix_cons_iff]

theorem pyIn_iff (n h : String) : pyIn n h = true ↔ n.data <:+: h.data :=
  hasSub_iff _ _

theorem pyStartsWith_iff (s p : String) : pyStartsWith s p = true ↔ p.data <+: s.data :=
  List.isPrefixOf_iff_prefix

theorem pyStartsWith_append2 (p a b : String) : pyStartsWith (p ++ a ++ b) p = true := by
  rw [pyStartsWith, List.isPrefixOf_iff_prefix, String.data_append, String.data_append,
    List.append_assoc]
  exact List.prefix_append _ _

/-- A string starting with `/redfish/v1` starts with `/` and with neither
scheme, so `urljoin` resolves it against the host. -/
theorem urljoin_abs {s : String} (host : String)
    (h : pyStartsWith s "/redfish/v1" = true) :
    urljoin host s = "https://" ++ host ++ s := by
  rw [pyStartsWith_iff] at h
  obtain ⟨c, cs, hd⟩ : ∃ c cs, s.data = c :: cs ∧ c = '/' := by
    rcases h with ⟨t, ht⟩
    exact ⟨'/', _, by rw [← ht]; rfl, rfl⟩
  have h1 : pyStartsWith s "/" = true := by
    rw [pyStartsWith_iff, hd.1]
    exact ⟨cs, by rw [hd.2]; rfl⟩
  have h2 : pyStartsWith s "https://" = false := by
    rw [← Bool.not_eq_true, pyStartsWith_iff, hd.1]
    intro hc
    rcases hc with ⟨t, ht⟩
    have : 'h' = c := by
      have := congrArg (fun l => l.head?) ht
      simpa using this
    rw [hd.2] at this
    exact absurd this (by decide)
  have h3 : pyStartsWith s "http://" = false := by
    rw [← Bool.not_eq_true, pyStartsWith_iff, hd.1]
    intro hc
    rcases hc with ⟨t, ht⟩
    have : 'h' = c := by
      have := congrArg (fun l => l.head?) ht
      simpa using this
    rw [hd.2] at this
    exact absurd this (by decide)
  simp [urljoin, h1, h2, h3]

theorem urljoin_of_https {m : String} (host : String)
    (h : pyStartsWith m "https://" = true) : urljoin host m = m := by
  simp [urljoin, h]

/-- Resolved member URLs are already absolute, so joining them again is the
identity: `_crawl_resource(member_url)` fetches exactly `member_url`. -/
theorem urljoin_idem {s : String} (host : String)
    (h : pyStartsWith s "/redfish/v1" = true) :
    urljoin host (urljoin host s) = urljoin host s := by
  rw [urljoin_abs host h]
  exact urljoin_of_https host (pyStartsWith_append2 _ _ _)

/-! ### Counting and membership helpers -/

theorem countE_nil (e : Event) : countE e [] = 0 := rfl

theorem countE_cons (e x : Event) (l : List Event) :
    countE e (x :: l) = (if x = e then 1 else 0) + countE e l := rfl

theorem countE_append (e : Event) (a b : List Event) :
    countE e (a ++ b) = countE e a + countE e b := by
  induction a with
  | nil => simp [countE]
  | cons x t ih => simp [countE, ih]; omega

theorem countE_eq_zero {e : Event} {l : List Event} : countE e l = 0 ↔ e ∉ l := by
  induction l with
  | nil => simp [countE]
  | cons x t ih =>
    by_cases hx : x = e
    · subst hx
      simp [countE, ih]
    · simp [countE, hx, ih, Ne.symm hx]

theorem countE_pos {e : Event} {l : List Event} : 0 < countE e l ↔ e ∈ l := by
  rcases Nat.eq_zero_or_pos (countE e l) with h | h
  · rw [h]
    simp [countE_eq_zero.mp h]
  · simp only [h, true_iff]
    by_contra hm
    rw [← countE_eq_zero] at hm
    omega

theorem mem_insertV {v u : String} {vis : List String} :
    v ∈ insertV u vis ↔ v = u ∨ v ∈ vis := by
  by_cases h : u ∈ vis
  · simp only [insertV, if_pos h]
    constructor
    · exact Or.inr
    · rintro (rfl | hv)
      · exact h
      · exact hv
  · simp [insertV, if_neg h]

theorem self_mem_insertV (u : String) (vis : List String) : u ∈ insertV u vis :=
  mem_insertV.mpr (Or.inl rfl)

theorem mem_insertV_of_mem {v u : String} {vis : List String} (h : v ∈ vis) :
    v ∈ insertV u vis :=
  mem_insertV.mpr (Or.inr h)

theorem lookupSvc_mem {svc : List (String × Resp)} {u : String} {r : Resp}
    (h : lookupSvc svc u = some r) : (u, r) ∈ svc := by
  induction svc with
  | nil => simp [lookupSvc] at h
  | cons p rest ih =>
    obtain ⟨k, v⟩ := p
    by_cases hk : k = u
    · subst hk
      simp [lookupSvc] at h
      simp [h]
    · rw [lookupSvc, if_neg hk] at h
      exact List.mem_cons_of_mem _ (ih h)

theorem lookupSvc_mem_dom {svc : List (String × Resp)} {u : String} {r : Resp}
    (h : lookupSvc svc u = some r) : u ∈ svc.map Prod.fst :=
  List.mem_map.mpr ⟨(u, r), lookupSvc_mem h, rfl⟩

theorem lookupField_mem {fs : List (String × Json)} {key : String} {v : Json}
    (h : lookupField fs key = some v) : (key, v) ∈ fs := by
  induction fs with
  | nil => simp [lookupField] at h
  | cons p rest ih =>
    obtain ⟨k, w⟩ := p
    by_cases hk : k = key
    · subst hk
      simp [lookupField] at h
      simp [h]
    · rw [lookupField, if_neg hk] at h
      exact List.mem_cons_of_mem _ (ih h)

/-! ### Claims C3, C5, C6 -/

/-- C3 (confirmed): the scope decision of line 88 is exactly substring
containment of the current resource's own `@odata.id` string in the
candidate's resolved URL string, and on the spec's concrete examples (in
both the abbreviated form the spec writes and the full `/redfish/v1`
prefixed form, against a concrete host) `/Chassis/1/Power` is in scope,
`/Systems/1` is out of scope, and `/Chassis/10` is in scope — the documented
false-positive sharp edge is reproduced, not corrected. -/
theorem c3_scope_is_substring :
    (∀ currentOdataId memberUrl : String,
        inScope currentOdataId memberUrl = true ↔
          currentOdataId.data <:+: memberUrl.data) ∧
    inScope "/Chassis/1" (urljoin "192.168.1.100" "/Chassis/1/Power") = true ∧
    inScope "/Chassis/1" (urljoin "192.168.1.100" "/Systems/1") = false ∧
    inScope "/Chassis/1" (urljoin "192.168.1.100" "/Chassis/10") = true ∧
    inScope "/redfish/v1/Chassis/1"
      (urljoin "192.168.1.100" "/redfish/v1/Chassis/1/Power") = true ∧
    inScope "/redfish/v1/Chassis/1"
      (urljoin "192.168.1.100" "/redfish/v1/Systems/1") = false ∧
    inScope "/redfish/v1/Chassis/1"
      (urljoin "192.168.1.100" "/redfish/v1/Chassis/10") = true :=
  ⟨fun c m => pyIn_iff c m, by decide, by decide, by decide, by decide, by decide, by decide⟩

/-- C5 (code bug): the storage-location derivation is NOT injective: the
distinct identifiers `https://h/redfish/v1/Chassis` and
`https://h/redfish/v1/v1/Chassis` are mapped to the same output file,
because `str.lstrip('/redfish/v1')` (line 105) strips leading characters
from the SET `{/,r,e,d,f,i,s,h,v,1}` instead of removing the literal prefix
`/redfish/v1`. -/
theorem c5_save_path_collision :
    savePath "redfish_mock_data" "https://h/redfish/v1/Chassis"
        = savePath "redfish_mock_data" "https://h/redfish/v1/v1/Chassis" ∧
      savePath "redfish_mock_data" "https://h/redfish/v1/Chassis"
        = "redfish_mock_data/Chassis/index.json" ∧
      "https://h/redfish/v1/Chassis" ≠ "https://h/redfish/v1/v1/Chassis" :=
  ⟨by decide, by decide, by decide⟩

/-! ### The session invariant -/

theorem sane_of (svc : List (String × Resp)) (vis : List String) (evts : List Event)
    (st : Status) (hnosave : ∀ v, Event.save v ∉ evts)
    (hfail : ∀ v, Event.httpFail v ∈ evts →
      ∃ s b, lookupSvc svc v = some (Resp.http s b) ∧ s ≠ 200) :
    Sane svc vis ⟨vis, evts, st⟩ where
  mono _ h := h
  vnew _ h := Or.inl h
  saveVis v h := absurd h (hnosave v)
  saveOnce v := by
    have h := countE_eq_zero.mpr (hnosave v)
    simp only [h]
    omega
  failTruth := hfail

theorem sane_seq_comp {svc : List (String × Resp)} {vis : List String} {r1 r2 : Res}
    {st : Status} (h1 : Sane svc vis r1) (h2 : Sane svc r1.visited r2)
    (hg : Guarded r1.visited r2) :
    Sane svc vis ⟨r2.visited, r1.events ++ r2.events, st⟩ where
  mono v h := h2.mono v (h1.mono v h)
  vnew v h := by
    rcases h2.vnew v h with h' | h'
    · rcases h1.vnew v h' with h'' | h''
      · exact Or.inl h''
      · exact Or.inr (List.mem_append.mpr (Or.inl h''))
    · exact Or.inr (List.mem_append.mpr (Or.inr h'))
  saveVis v h := by
    rcases List.mem_append.mp h with h' | h'
    · exact h2.mono v (h1.saveVis v h')
    · exact h2.saveVis v h'
  saveOnce v := by
    show countE (Event.save v) (r1.events ++ r2.events) ≤ 1
    rw [countE_append]
    by_cases hm : Event.save v ∈ r1.events
    · have hz := (hg v (h1.saveVis v hm)).2
      have h1' := h1.saveOnce v
      omega
    · have hz : countE (Event.save v) r1.events = 0 := countE_eq_zero.mpr hm
      have h2' := h2.saveOnce v
      omega
  failTruth v h := by
    rcases List.mem_append.mp h with h' | h'
    · exact h1.failTruth v h'
    · exact h2.failTruth v h'

theorem guarded_seq_comp {vis : List String} {r1 r2 : Res} {st : Status}
    (hmono : ∀ v, v ∈ vis → v ∈ r1.visited)
    (g1 : Guarded vis r1) (g2 : Guarded r1.visited r2) :
    Guarded vis ⟨r2.visited, r1.events ++ r2.events, st⟩ := by
  intro v hv
  have a1 := g1 v hv
  have a2 := g2 v (hmono v hv)
  constructor
  · show countE (Event.fetch v) (r1.events ++ r2.events) = 0
    rw [countE_append]
    omega
  · show countE (Event.save v) (r1.events ++ r2.events) = 0
    rw [countE_append]
    omega

theorem seqRes_sane {svc : List (String × Resp)} {vis : List String} {r1 : Res}
    {k : List String → Res} (h1 : Sane svc vis r1)
    (h2 : Sane svc r1.visited (k r1.visited)) (hg : Guarded r1.visited (k r1.visited)) :
    Sane svc vis (seqRes r1 k) := by
  cases hst : r1.status with
  | normal => simpa [seqRes, hst] using sane_seq_comp h1 h2 hg
  | crashed => simpa [seqRes, hst] using h1
  | fuelOut => simpa [seqRes, hst] using h1

theorem seqRes_guarded {vis : List String} {r1 : Res} {k : List String → Res}
    (hmono : ∀ v, v ∈ vis → v ∈ r1.visited)
    (g1 : Guarded vis r1) (g2 : Guarded r1.visited (k r1.visited)) :
    Guarded vis (seqRes r1 k) := by
  cases hst : r1.status with
  | normal => simpa [seqRes, hst] using guarded_seq_comp hmono g1 g2
  | crashed => simpa [seqRes, hst] using g1
  | fuelOut => simpa [seqRes, hst] using g1

theorem sane_guard_single_save (svc : List (String × Resp)) (u : String)
    (vis : List String) (st : Status) :
    Sane svc vis ⟨insertV u vis, [Event.save u], st⟩ ∧
      (u ∉ vis → Guarded vis ⟨insertV u vis, [Event.save u], st⟩) := by
  constructor
  · exact
      { mono := fun v hv => mem_insertV_of_mem hv
        vnew := fun v hv => by
          rcases mem_insertV.mp hv with rfl | hv'
          · exact Or.inr (List.mem_singleton.mpr rfl)
          · exact Or.inl hv'
        saveVis := fun v hv => by
          have : v = u := by
            have := List.mem_singleton.mp hv
            injection this
          exact this ▸ self_mem_insertV u vis
        saveOnce := fun v => by
          by_cases hv : u = v <;> simp [countE, hv]
        failTruth := fun v hv => by simp at hv }
  · intro hu v hv
    have hne : u ≠ v := fun h => hu (h ▸ hv)
    constructor <;> simp [countE, hne]

/-- The main bookkeeping theorem: every (sub)run of the crawler is `Sane`,
and `Guarded` whenever its task's guard holds.  In particular a crawl
session saves each identifier at most once, and never again fetches an
identifier once it is registered as visited. -/
theorem crawlRun_sane (host outputDir : String) (svc : List (String × Resp))
    (sinkFails : String → Bool) :
    ∀ (fuel : Nat) (t : Task) (vis : List String),
      Sane svc vis (crawlRun host outputDir svc sinkFails fuel t vis) ∧
        (taskGuard host t vis →
          Guarded vis (crawlRun host outputDir svc sinkFails fuel t vis)) := by
  intro fuel
  induction fuel with
  | zero =>
    intro t vis
    rw [crawlRun_zero]
    exact ⟨sane_of svc vis [] _ (by simp) (by simp), fun _ v _ => ⟨rfl, rfl⟩⟩
  | succ fuel IH =>
    intro t vis
    match t with
    | .res resourceUrl =>
      cases hl : lookupSvc svc (urljoin host resourceUrl) with
      | none =>
        rw [crawlRun_res_none host outputDir svc sinkFails fuel resourceUrl vis hl]
        refine ⟨sane_of _ _ _ _ (by simp) (by simp), ?_⟩
        intro hg v hv
        have hne : urljoin host resourceUrl ≠ v := fun h => hg (h ▸ hv)
        constructor <;> simp [countE, hne]
      | some r =>
        obtain ⟨status, body⟩ := r
        by_cases h200 : status = 200
        · subst h200
          cases body with
          | invalid =>
            rw [crawlRun_res_invalid host outputDir svc sinkFails fuel resourceUrl vis hl]
            refine ⟨sane_of _ _ _ _ (by simp) (by simp), ?_⟩
            intro hg v hv
            have hne : urljoin host resourceUrl ≠ v := fun h => hg (h ▸ hv)
            constructor <;> simp [countE, hne]
          | json d =>
            rw [crawlRun_res_json host outputDir svc sinkFails fuel resourceUrl vis d hl]
            obtain ⟨ihS, ihG⟩ := IH (.hs (urljoin host resourceUrl) d) vis
            refine ⟨?_, ?_⟩
            · exact
                { mono := ihS.mono
                  vnew := fun v hv => (ihS.vnew v hv).imp id (List.mem_cons_of_mem _)
                  saveVis := fun v hv => by
                    rcases List.mem_cons.mp hv with h | h
                    · exact absurd h (by simp)
                    · exact ihS.saveVis v h
                  saveOnce := fun v => by
                    have := ihS.saveOnce v
                    simpa [countE] using this
                  failTruth := fun v hv => by
                    rcases List.mem_cons.mp hv with h | h
                    · exact absurd h (by simp)
                    · exact ihS.failTruth v h }
            · intro hg
              have hG := ihG hg
              intro v hv
              have hne : urljoin host resourceUrl ≠ v := fun h => hg (h ▸ hv)
              have := hG v hv
              constructor <;> simp [countE, hne, this.1, this.2]
        · rw [crawlRun_res_non200 host outputDir svc sinkFails fuel resourceUrl vis
            status body hl h200]
          refine ⟨sane_of _ _ _ _ (by simp) ?_, ?_⟩
          · intro v hv
            have : v = urljoin host resourceUrl := by
              rcases List.mem_cons.mp hv with h | h
              · exact absurd h (by simp)
              · injection List.mem_singleton.mp h
            exact this ▸ ⟨status, body, hl, h200⟩
          · intro hg v hv
            have hne : urljoin host resourceUrl ≠ v := fun h => hg (h ▸ hv)
            constructor <;> simp [countE, hne]
    | .hs fullUrl d =>
      by_cases hsk : sinkFails (savePath outputDir fullUrl) = true
      · rw [crawlRun_hs_crash host outputDir svc sinkFails fuel fullUrl d vis hsk]
        exact ⟨sane_of _ _ _ _ (by simp) (by simp), fun _ v _ => ⟨rfl, rfl⟩⟩
      · have hsk' : sinkFails (savePath outputDir fullUrl) = false := by
          simpa using hsk
        cases d with
        | obj fs =>
          cases hf : lookupField fs "@odata.id" with
          | some cur =>
            rw [crawlRun_hs_obj_some host outputDir svc sinkFails fuel fullUrl fs cur vis
              hsk' hf]
            obtain ⟨ihS, ihG⟩ := IH (.fields fs cur) (insertV fullUrl vis)
            have ihG' := ihG trivial
            refine ⟨?_, ?_⟩
            · exact
                { mono := fun v hv => ihS.mono v (mem_insertV_of_mem hv)
                  vnew := fun v hv => by
                    rcases ihS.vnew v hv with h | h
                    · rcases mem_insertV.mp h with rfl | h'
                      · exact Or.inr (List.mem_cons_self _ _)
                      · exact Or.inl h'
                    · exact Or.inr (List.mem_cons_of_mem _ h)
                  saveVis := fun v hv => by
                    rcases List.mem_cons.mp hv with h | h
                    · have hvu : v = fullUrl := by injection h
                      exact hvu ▸ ihS.mono fullUrl (self_mem_insertV _ _)
                    · exact ihS.saveVis v h
                  saveOnce := fun v => by
                    by_cases hv : fullUrl = v
                    · subst hv
                      have hz := (ihG' fullUrl (self_mem_insertV fullUrl vis)).2
                      simp [countE, hz]
                    · have := ihS.saveOnce v
                      simpa [countE, hv] using this
                  failTruth := fun v hv => by
                    rcases List.mem_cons.mp hv with h | h
                    · exact absurd h (by simp)
                    · exact ihS.failTruth v h }
            · intro hg v hv
              have hne : fullUrl ≠ v := fun h => hg (h ▸ hv)
              have := ihG' v (mem_insertV_of_mem hv)
              constructor <;> simp [countE, hne, this.1, this.2]
          | none =>
            rw [crawlRun_hs_obj_none host outputDir svc sinkFails fuel fullUrl fs vis
              hsk' hf]
            exact sane_guard_single_save svc fullUrl vis _
        | arr es =>
          rw [crawlRun_hs_arr host outputDir svc sinkFails fuel fullUrl es vis hsk']
          exact sane_guard_single_save svc fullUrl vis _
        | str s =>
          rw [crawlRun_hs_str host outputDir svc sinkFails fuel fullUrl s vis hsk']
          exact sane_guard_single_save svc fullUrl vis _
        | num n =>
          rw [crawlRun_hs_num host outputDir svc sinkFails fuel fullUrl n vis hsk']
          exact sane_guard_single_save svc fullUrl vis _
        | boolean b =>
          rw [crawlRun_hs_boolean host outputDir svc sinkFails fuel fullUrl b vis hsk']
          exact sane_guard_single_save svc fullUrl vis _
        | null =>
          rw [crawlRun_hs_null host outputDir svc sinkFails fuel fullUrl vis hsk']
          exact sane_guard_single_save svc fullUrl vis _
    | .fields fs cur =>
      cases fs with
      | nil =>
        rw [crawlRun_fields_nil]
        exact ⟨sane_of _ _ _ _ (by simp) (by simp), fun _ v _ => ⟨rfl, rfl⟩⟩
      | cons kv rest =>
        obtain ⟨key, value⟩ := kv
        rw [crawlRun_fields_cons]
        have hstep : Sane svc vis (fieldStep host outputDir svc sinkFails fuel key value cur vis)
            ∧ Guarded vis (fieldStep host outputDir svc sinkFails fuel key value cur vis) := by
          cases value with
          | str s =>
            by_cases hc : (key = "@odata.id" && pyStartsWith s "/redfish/v1") = true
            · by_cases hm : urljoin host s ∈ vis
              · refine ⟨?_, ?_⟩ <;> simp only [fieldStep, if_pos hc, if_pos hm]
                · exact sane_of _ _ _ _ (by simp) (by simp)
                · exact fun v _ => ⟨rfl, rfl⟩
              · cases cur with
                | str c =>
                  by_cases hsc : inScope c (urljoin host s) = true
                  · have hred : fieldStep host outputDir svc sinkFails fuel key
                        (.str s) (.str c) vis
                        = crawlRun host outputDir svc sinkFails fuel
                            (.res (urljoin host s)) vis := by
                      simp only [fieldStep, if_pos hc, if_neg hm, if_pos hsc]
                    rw [hred]
                    obtain ⟨ihS, ihG⟩ := IH (.res (urljoin host s)) vis
                    refine ⟨ihS, ihG ?_⟩
                    show urljoin host (urljoin host s) ∉ vis
                    rw [urljoin_idem host (Bool.and_elim_right hc)]
                    exact hm
                  · have hsc' : inScope c (urljoin host s) = false := by
                      simpa using hsc
                    refine ⟨?_, ?_⟩ <;>
                      simp only [fieldStep, if_pos hc, if_neg hm, hsc', if_false,
                        Bool.false_eq_true]
                    · exact sane_of _ _ _ _ (by simp) (by simp)
                    · exact fun v _ => ⟨rfl, rfl⟩
                | obj fs1 =>
                  refine ⟨?_, ?_⟩ <;> simp only [fieldStep, if_pos hc, if_neg hm]
                  · exact sane_of _ _ _ _ (by simp) (by simp)
                  · exact fun v _ => ⟨rfl, rfl⟩
                | arr es1 =>
                  refine ⟨?_, ?_⟩ <;> simp only [fieldStep, if_pos hc, if_neg hm]
                  · exact sane_of _ _ _ _ (by simp) (by simp)
                  · exact fun v _ => ⟨rfl, rfl⟩
                | num n =>
                  refine ⟨?_, ?_⟩ <;> simp only [fieldStep, if_pos hc, if_neg hm]
                  · exact sane_of _ _ _ _ (by simp) (by simp)
                  · exact fun v _ => ⟨rfl, rfl⟩
                | boolean b =>
                  refine ⟨?_, ?_⟩ <;> simp only [fieldStep, if_pos hc, if_neg hm]
                  · exact sane_of _ _ _ _ (by simp) (by simp)
                  · exact fun v _ => ⟨rfl, rfl⟩
                | null =>
                  refine ⟨?_, ?_⟩ <;> simp only [fieldStep, if_pos hc, if_neg hm]
                  · exact sane_of _ _ _ _ (by simp) (by simp)
                  · exact fun v _ => ⟨rfl, rfl⟩
            · have hc' : (key = "@odata.id" && pyStartsWith s "/redfish/v1") = false := by
                simpa using hc
              refine ⟨?_, ?_⟩ <;> simp only [fieldStep, hc', if_false, Bool.false_eq_true]
              · exact sane_of _ _ _ _ (by simp) (by simp)
              · exact fun v _ => ⟨rfl, rfl⟩
          | obj fs1 =>
            obtain ⟨ihS, ihG⟩ := IH (.fields fs1 cur) vis
            exact ⟨ihS, ihG trivial⟩
          | arr es1 =>
            obtain ⟨ihS, ihG⟩ := IH (.items es1 cur) vis
            exact ⟨ihS, ihG trivial⟩
          | num n => exact ⟨sane_of _ _ _ _ (by simp) (by simp), fun v _ => ⟨rfl, rfl⟩⟩
          | boolean b => exact ⟨sane_of _ _ _ _ (by simp) (by simp), fun v _ => ⟨rfl, rfl⟩⟩
          | null => exact ⟨sane_of _ _ _ _ (by simp) (by simp), fun v _ => ⟨rfl, rfl⟩⟩
        obtain ⟨hS1, hG1⟩ := hstep
        obtain ⟨hS2, ihG2⟩ :=
          IH (.fields rest cur)
            (fieldStep host outputDir svc sinkFails fuel key value cur vis).visited
        have hG2 := ihG2 trivial
        exact ⟨seqRes_sane hS1 hS2 hG2, fun _ => seqRes_guarded hS1.mono hG1 hG2⟩
    | .items es cur =>
      cases es with
      | nil =>
        rw [crawlRun_items_nil]
        exact ⟨sane_of _ _ _ _ (by simp) (by simp), fun _ v _ => ⟨rfl, rfl⟩⟩
      | cons item rest =>
        rw [crawlRun_items_cons]
        have hstep : Sane svc vis (itemStep host outputDir svc sinkFails fuel item cur vis)
            ∧ Guarded vis (itemStep host outputDir svc sinkFails fuel item cur vis) := by
          cases item with
          | obj fs1 =>
            obtain ⟨ihS, ihG⟩ := IH (.fields fs1 cur) vis
            exact ⟨ihS, ihG trivial⟩
          | str s => exact ⟨sane_of _ _ _ _ (by simp) (by simp), fun v _ => ⟨rfl, rfl⟩⟩
          | arr es1 => exact ⟨sane_of _ _ _ _ (by simp) (by simp), fun v _ => ⟨rfl, rfl⟩⟩
          | num n => exact ⟨sane_of _ _ _ _ (by simp) (by simp), fun v _ => ⟨rfl, rfl⟩⟩
          | boolean b => exact ⟨sane_of _ _ _ _ (by simp) (by simp), fun v _ => ⟨rfl, rfl⟩⟩
          | null => exact ⟨sane_of _ _ _ _ (by simp) (by simp), fun v _ => ⟨rfl, rfl⟩⟩
        obtain ⟨hS1, hG1⟩ := hstep
        obtain ⟨hS2, ihG2⟩ :=
          IH (.items rest cur)
            (itemStep host outputDir svc sinkFails fuel item cur vis).visited
        have hG2 := ihG2 trivial
        exact ⟨seqRes_sane hS1 hS2 hG2, fun _ => seqRes_guarded hS1.mono hG1 hG2⟩

/-- C1 counterexample: the claim "the fetch operation is invoked for an
identifier at most once per session; a failed identifier is terminal and
never fetched again" is false on the code: in the session over `svcC1`, the
identifier `https://h/redfish/v1/C/X` fails with a transport error, is NOT
registered as visited (line 68 runs only after a successful fetch, parse and
save), is rediscovered under a second parent object, and is fetched twice. -/
theorem c1_counterexample :
    countE (Event.fetch "https://h/redfish/v1/C/X")
      (crawl "h" "out" svcC1 (fun _ => false) 20 "/redfish/v1/C").events = 2 := by
  decide

/-- C1 (corrected): what the code guarantees is at-most-once per identifier
for SUCCESSFUL fetches — each identifier is saved (hence successfully
fetched, parsed and persisted) at most once per session — and an identifier
already registered in the visited set is never fetched nor saved by any
(guarded) continuation of the session.  An identifier whose fetch fails is
not registered and may be fetched again when rediscovered. -/
theorem c1_amended :
    ∀ (host outputDir : String) (svc : List (String × Resp)) (sinkFails : String → Bool)
      (fuel : Nat) (startResource url : String),
      countE (Event.save url)
          (crawl host outputDir svc sinkFails fuel startResource).events ≤ 1 ∧
      (∀ (t : Task) (vis : List String), url ∈ vis → taskGuard host t vis →
        countE (Event.fetch url)
            (crawlRun host outputDir svc sinkFails fuel t vis).events = 0 ∧
        countE (Event.save url)
            (crawlRun host outputDir svc sinkFails fuel t vis).events = 0) := by
  intro host outputDir svc sinkFails fuel startResource url
  constructor
  · exact (crawlRun_sane host outputDir svc sinkFails fuel (.res startResource) []).1.saveOnce url
  · intro t vis hv hg
    exact (crawlRun_sane host outputDir svc sinkFails fuel t vis).2 hg url hv

/-- C9 (confirmed): a fetch is treated as successful exactly when the status
code is 200: any other status (including 201, 204) takes the failure path —
the run emits only the fetch and `httpFail` events, the visited set is
unchanged, nothing is saved and no link is followed — while a 200 response
never produces an `httpFail` event for that URL. -/
theorem c9_success_iff_200 (host outputDir : String) (svc : List (String × Resp))
    (sinkFails : String → Bool) (fuel : Nat) (resourceUrl : String) (vis : List String)
    (status : Nat) (body : Body)
    (hl : lookupSvc svc (urljoin host resourceUrl) = some (.http status body)) :
    (status ≠ 200 →
      crawlRun host outputDir svc sinkFails (fuel + 1) (.res resourceUrl) vis
        = ⟨vis, [.fetch (urljoin host resourceUrl), .httpFail (urljoin host resourceUrl)],
            .normal⟩) ∧
    (status = 200 →
      countE (Event.httpFail (urljoin host resourceUrl))
        (crawlRun host outputDir svc sinkFails (fuel + 1) (.res resourceUrl) vis).events
        = 0) := by
  constructor
  · intro hne
    exact crawlRun_res_non200 host outputDir svc sinkFails fuel resourceUrl vis
      status body hl hne
  · intro h200
    subst h200
    by_contra hne
    have hpos : 0 < countE (Event.httpFail (urljoin host resourceUrl))
        (crawlRun host outputDir svc sinkFails (fuel + 1) (.res resourceUrl) vis).events := by
      omega
    have hmem := countE_pos.mp hpos
    obtain ⟨s, b, hl', hs⟩ :=
      (crawlRun_sane host outputDir svc sinkFails (fuel + 1) (.res resourceUrl) vis).1.failTruth
        _ hmem
    rw [hl] at hl'
    injection hl' with hl''
    injection hl'' with h1 h2
    exact hs h1.symm

/-- C9 witness: over `svcC9` (HTTP 201 with a well-formed body) the fetch
takes the failure path: nothing is saved, no link is followed. -/
theorem c9_witness :
    crawlRun "h" "out" svcC9 (fun _ => false) 5 (.res "/redfish/v1/C") []
      = ⟨[], [.fetch "https://h/redfish/v1/C", .httpFail "https://h/redfish/v1/C"],
          .normal⟩ :=
  (c9_success_iff_200 "h" "out" svcC9 (fun _ => false) 4 "/redfish/v1/C" []
    201 (.json (.obj [("@odata.id", .str "/redfish/v1/C")])) rfl).1 (by decide)

/-- C10 (confirmed): a successfully fetched and parsed document without a
top-level `@odata.id` key is saved, but the run stops there: the visited set
gains only this URL and the only events are its fetch and save — no link
extraction or recursion happens, whatever links exist deeper in the
document. -/
theorem c10_no_root_id_no_recursion (host outputDir : String)
    (svc : List (String × Resp)) (sinkFails : String → Bool) (fuel : Nat)
    (resourceUrl : String) (vis : List String) (fs : List (String × Json))
    (hl : lookupSvc svc (urljoin host resourceUrl) = some (.http 200 (.json (.obj fs))))
    (hno : lookupField fs "@odata.id" = none)
    (hsk : sinkFails (savePath outputDir (urljoin host resourceUrl)) = false) :
    crawlRun host outputDir svc sinkFails (fuel + 2) (.res resourceUrl) vis
      = ⟨insertV (urljoin host resourceUrl) vis,
         [.fetch (urljoin host resourceUrl), .save (urljoin host resourceUrl)],
         .normal⟩ := by
  rw [show fuel + 2 = (fuel + 1) + 1 from rfl,
    crawlRun_res_json host outputDir svc sinkFails (fuel + 1) resourceUrl vis _ hl,
    crawlRun_hs_obj_none host outputDir svc sinkFails fuel (urljoin host resourceUrl)
      fs vis hsk hno]

/-- C10 witness: over `svcC10`, whose start document has a navigable
`@odata.id` link nested inside an array but no top-level `@odata.id`, the
crawl saves the document and follows nothing. -/
theorem c10_witness :
    crawlRun "h" "out" svcC10 (fun _ => false) 5 (.res "/redfish/v1/C") []
      = ⟨["https://h/redfish/v1/C"],
         [.fetch "https://h/redfish/v1/C", .save "https://h/redfish/v1/C"], .normal⟩ :=
  c10_no_root_id_no_recursion "h" "out" svcC10 (fun _ => false) 3 "/redfish/v1/C" []
    [("Members", .arr [.obj [("@odata.id", .str "/redfish/v1/C/1")]])] rfl rfl rfl

/-! ### Crash-freedom (claim C7) -/

theorem seqRes_status_ne {r1 : Res} {k : List String → Res} {x : Status}
    (h1 : r1.status ≠ x) (h2 : (k r1.visited).status ≠ x) :
    (seqRes r1 k).status ≠ x := by
  cases hst : r1.status with
  | normal => simpa [seqRes, hst] using h2
  | crashed => simp [seqRes, hst]; rw [hst] at h1; exact h1
  | fuelOut => simp [seqRes, hst]; rw [hst] at h1; exact h1

/-- With a sink that never fails and a service all of whose documents are
safe, no (sub)run of the crawler ends in an uncaught exception. -/
theorem crawlRun_no_crash (host outputDir : String) (svc : List (String × Resp))
    (sinkFails : String → Bool) (hsk : ∀ p, sinkFails p = false)
    (hsafe : safeSvc svc) :
    ∀ (fuel : Nat) (t : Task) (vis : List String), taskSafe t →
      (crawlRun host outputDir svc sinkFails fuel t vis).status ≠ .crashed := by
  intro fuel
  induction fuel with
  | zero =>
    intro t vis _
    rw [crawlRun_zero]
    simp
  | succ fuel IH =>
    intro t vis hts
    match t with
    | .res resourceUrl =>
      cases hl : lookupSvc svc (urljoin host resourceUrl) with
      | none =>
        rw [crawlRun_res_none host outputDir svc sinkFails fuel resourceUrl vis hl]
        simp
      | some r =>
        obtain ⟨status, body⟩ := r
        by_cases h200 : status = 200
        · subst h200
          cases body with
          | invalid =>
            rw [crawlRun_res_invalid host outputDir svc sinkFails fuel resourceUrl vis hl]
            simp
          | json d =>
            rw [crawlRun_res_json host outputDir svc sinkFails fuel resourceUrl vis d hl]
            have hS : SafeDoc d := hsafe _ (lookupSvc_mem hl) 200 d rfl
            exact IH (.hs (urljoin host resourceUrl) d) vis hS
        · rw [crawlRun_res_non200 host outputDir svc sinkFails fuel resourceUrl vis
            status body hl h200]
          simp
    | .hs fullUrl d =>
      have hsk' : sinkFails (savePath outputDir fullUrl) = false := hsk _
      obtain ⟨fs, rfl, hid⟩ := hts
      cases hf : lookupField fs "@odata.id" with
      | some cur =>
        rw [crawlRun_hs_obj_some host outputDir svc sinkFails fuel fullUrl fs cur vis
          hsk' hf]
        exact IH (.fields fs cur) (insertV fullUrl vis) (hid cur hf)
      | none =>
        rw [crawlRun_hs_obj_none host outputDir svc sinkFails fuel fullUrl fs vis hsk' hf]
        simp
    | .fields fs cur =>
      obtain ⟨c, rfl⟩ := hts
      cases fs with
      | nil =>
        rw [crawlRun_fields_nil]
        simp
      | cons kv rest =>
        obtain ⟨key, value⟩ := kv
        rw [crawlRun_fields_cons]
        refine seqRes_status_ne ?_ (IH (.fields rest (.str c)) _ ⟨c, rfl⟩)
        cases value with
        | str s =>
          by_cases hc : (key = "@odata.id" && pyStartsWith s "/redfish/v1") = true
          · by_cases hm : urljoin host s ∈ vis
            · simp [fieldStep, if_pos hc, if_pos hm]
            · by_cases hsc : inScope c (urljoin host s) = true
              · have hred : fieldStep host outputDir svc sinkFails fuel key (.str s)
                    (.str c) vis
                    = crawlRun host outputDir svc sinkFails fuel
                        (.res (urljoin host s)) vis := by
                  simp only [fieldStep, if_pos hc, if_neg hm, if_pos hsc]
                rw [hred]
                exact IH (.res (urljoin host s)) vis trivial
              · have hsc' : inScope c (urljoin host s) = false := by simpa using hsc
                simp [fieldStep, if_pos hc, if_neg hm, hsc']
          · have hc' : (key = "@odata.id" && pyStartsWith s "/redfish/v1") = false := by
              simpa using hc
            simp [fieldStep, hc']
        | obj fs1 => exact IH (.fields fs1 (.str c)) vis ⟨c, rfl⟩
        | arr es1 => exact IH (.items es1 (.str c)) vis ⟨c, rfl⟩
        | num n => simp [fieldStep]
        | boolean b => simp [fieldStep]
        | null => simp [fieldStep]
    | .items es cur =>
      obtain ⟨c, rfl⟩ := hts
      cases es with
      | nil =>
        rw [crawlRun_items_nil]
        simp
      | cons item rest =>
        rw [crawlRun_items_cons]
        refine seqRes_status_ne ?_ (IH (.items rest (.str c)) _ ⟨c, rfl⟩)
        cases item with
        | obj fs1 => exact IH (.fields fs1 (.str c)) vis ⟨c, rfl⟩
        | str s => simp [itemStep]
        | arr es1 => simp [itemStep]
        | num n => simp [itemStep]
        | boolean b => simp [itemStep]
        | null => simp [itemStep]

/-- C7 counterexample: a failure while persisting a document IS fatal: over
`svcC7` with a sink that fails, the whole crawl ends `crashed` — the
`OSError` raised inside `_save_data` is caught by neither
`_handle_successful_response` (which catches only `json.JSONDecodeError`)
nor `_crawl_resource` (which catches only `requests.RequestException`). -/
theorem c7_counterexample :
    (crawl "h" "out" svcC7 (fun _ => true) 5 "/redfish/v1/C").status = .crashed := by
  decide

/-- C7 (corrected): errors on the Fetcher side — transport failures,
non-success HTTP statuses and JSON parse failures — are indeed handled
locally and the crawl continues; but a failure while persisting a document
propagates out of the traversal as a fatal crash.  Provided the sink never
fails (and every served document is a JSON object whose `@odata.id`, if
present, is a string — otherwise an uncaught `TypeError` is possible too),
no crawl session ever ends in a crash. -/
theorem c7_amended (host outputDir : String) (svc : List (String × Resp))
    (sinkFails : String → Bool) (fuel : Nat) (startResource : String)
    (hsk : ∀ p, sinkFails p = false) (hsafe : safeSvc svc) :
    (crawl host outputDir svc sinkFails fuel startResource).status ≠ .crashed :=
  crawlRun_no_crash host outputDir svc sinkFails hsk hsafe fuel
    (.res startResource) [] trivial

/-- C7 witness: with a never-failing sink, the crawl over `svcC7` does not
crash. -/
theorem c7_witness :
    (crawl "h" "out" svcC7 (fun _ => false) 5 "/redfish/v1/C").status ≠ .crashed :=
  c7_amended "h" "out" svcC7 (fun _ => false) 5 "/redfish/v1/C" (fun _ => rfl)
    (by
      intro p hp s d hd
      simp only [svcC7, List.mem_singleton] at hp
      subst hp
      simp only at hd
      injection hd with h1 h2
      injection h2 with h3
      subst h3
      refine ⟨_, rfl, ?_⟩
      intro v hv
      simp [lookupField] at hv
      exact ⟨_, hv.symm⟩)

/-! ### Termination (claim C2) -/

theorem jsize_pos (d : Json) : 1 ≤ jsize d := by
  cases d <;> simp [jsize]

theorem jsizeF_pos (fs : List (String × Json)) : 1 ≤ jsizeF fs := by
  cases fs with
  | nil => simp [jsizeF]
  | cons kv rest =>
    obtain ⟨k, v⟩ := kv
    simp [jsizeF]
    omega

theorem jsizeI_pos (es : List Json) : 1 ≤ jsizeI es := by
  cases es with
  | nil => simp [jsizeI]
  | cons item rest =>
    simp [jsizeI]
    omega

theorem respDocSize_le {svc : List (String × Resp)} {u : String} {r : Resp}
    (h : lookupSvc svc u = some r) : respDocSize r ≤ maxDoc svc := by
  induction svc with
  | nil => simp [lookupSvc] at h
  | cons p rest ih =>
    obtain ⟨k, r'⟩ := p
    have hm : maxDoc ((k, r') :: rest) = max (respDocSize r') (maxDoc rest) := rfl
    by_cases hk : k = u
    · rw [lookupSvc, if_pos hk] at h
      injection h with h'
      subst h'
      rw [hm]
      exact le_max_left _ _
    · rw [lookupSvc, if_neg hk] at h
      rw [hm]
      exact le_trans (ih h) (le_max_right _ _)

theorem nFresh_anti {svc : List (String × Resp)} {vis vis' : List String}
    (h : ∀ v, v ∈ vis → v ∈ vis') : nFresh svc vis' ≤ nFresh svc vis := by
  apply List.Sublist.length_le
  apply List.monotone_filter_right
  intro a ha
  simp only [decide_eq_true_eq] at ha ⊢
  intro hmem
  exact ha (h a hmem)

theorem length_filter_lt {α : Type} {p q : α → Bool} {l : List α}
    (himp : ∀ x, q x = true → p x = true) {a : α} (ha : a ∈ l)
    (hpa : p a = true) (hqa : q a = false) :
    (l.filter q).length < (l.filter p).length := by
  induction l with
  | nil => simp at ha
  | cons x t ih =>
    rcases List.mem_cons.mp ha with rfl | hat
    · rw [List.filter_cons, List.filter_cons, hpa, hqa]
      have hsub : (t.filter q).length ≤ (t.filter p).length :=
        (List.monotone_filter_right t himp).length_le
      simp
      omega
    · rw [List.filter_cons, List.filter_cons]
      cases hqx : q x
      · cases hpx : p x
        · simp only [if_false, Bool.false_eq_true]
          exact ih hat
        · simp only [if_true, List.length_cons, Bool.false_eq_true, if_false]
          have := ih hat
          omega
      · have hpx := himp x hqx
        rw [hpx]
        simp only [if_true, List.length_cons]
        have := ih hat
        omega

theorem nFresh_insert_lt {svc : List (String × Resp)} {u : String} {vis : List String}
    (hdom : u ∈ domUrls svc) (hvis : u ∉ vis) :
    nFresh svc (insertV u vis) < nFresh svc vis := by
  rw [nFresh, nFresh, insertV, if_neg hvis]
  apply length_filter_lt (a := u) _ hdom
  · simp [hvis]
  · simp
  · intro x hx
    simp only [decide_eq_true_eq] at hx ⊢
    intro hmem
    exact hx (List.mem_cons_of_mem _ hmem)

theorem nFresh_le_length (svc : List (String × Resp)) (vis : List String) :
    nFresh svc vis ≤ svc.length := by
  calc nFresh svc vis ≤ (domUrls svc).length := (List.filter_sublist _).length_le
  _ = svc.length := by simp [domUrls]

theorem fieldStep_mono (host outputDir : String) (svc : List (String × Resp))
    (sinkFails : String → Bool) (fuel : Nat) (key : String) (value cur : Json)
    (vis : List String) :
    ∀ v, v ∈ vis →
      v ∈ (fieldStep host outputDir svc sinkFails fuel key value cur vis).visited := by
  intro v hv
  cases value with
  | str s =>
    by_cases hc : (key = "@odata.id" && pyStartsWith s "/redfish/v1") = true
    · by_cases hm : urljoin host s ∈ vis
      · simpa [fieldStep, hc, hm] using hv
      · cases cur with
        | str c =>
          by_cases hsc : inScope c (urljoin host s) = true
          · have hred : fieldStep host outputDir svc sinkFails fuel key (.str s) (.str c) vis
                = crawlRun host outputDir svc sinkFails fuel (.res (urljoin host s)) vis := by
              simp only [fieldStep, if_pos hc, if_neg hm, if_pos hsc]
            rw [hred]
            exact (crawlRun_sane host outputDir svc sinkFails fuel
              (.res (urljoin host s)) vis).1.mono v hv
          · have hsc' : inScope c (urljoin host s) = false := by simpa using hsc
            simpa [fieldStep, hc, hm, hsc'] using hv
        | obj fs1 => simpa [fieldStep, hc, hm] using hv
        | arr es1 => simpa [fieldStep, hc, hm] using hv
        | num n => simpa [fieldStep, hc, hm] using hv
        | boolean b => simpa [fieldStep, hc, hm] using hv
        | null => simpa [fieldStep, hc, hm] using hv
    · have hc' : (key = "@odata.id" && pyStartsWith s "/redfish/v1") = false := by
        simpa using hc
      simpa [fieldStep, hc'] using hv
  | obj fs1 =>
    exact (crawlRun_sane host outputDir svc sinkFails fuel (.fields fs1 cur) vis).1.mono v hv
  | arr es1 =>
    exact (crawlRun_sane host outputDir svc sinkFails fuel (.items es1 cur) vis).1.mono v hv
  | num n => exact hv
  | boolean b => exact hv
  | null => exact hv

theorem itemStep_mono (host outputDir : String) (svc : List (String × Resp))
    (sinkFails : String → Bool) (fuel : Nat) (item cur : Json) (vis : List String) :
    ∀ v, v ∈ vis →
      v ∈ (itemStep host outputDir svc sinkFails fuel item cur vis).visited := by
  intro v hv
  cases item with
  | obj fs1 =>
    exact (crawlRun_sane host outputDir svc sinkFails fuel (.fields fs1 cur) vis).1.mono v hv
  | str s => exact hv
  | arr es1 => exact hv
  | num n => exact hv
  | boolean b => exact hv
  | null => exact hv

/-- Fuel sufficiency: a (sub)run whose task satisfies `termCond` never runs
out of fuel — the embedding's budget is an artefact, and the Python
recursion it models terminates. -/
theorem crawlRun_no_fuelOut (host outputDir : String) (svc : List (String × Resp))
    (sinkFails : String → Bool) :
    ∀ (fuel : Nat) (t : Task) (vis : List String), termCond host svc fuel t vis →
      (crawlRun host outputDir svc sinkFails fuel t vis).status ≠ .fuelOut := by
  intro fuel
  induction fuel with
  | zero =>
    intro t vis hc
    exfalso
    match t with
    | .res u =>
      have h2 : (maxDoc svc + 4) * (nFresh svc vis + 1) + 2 ≤ 0 := hc.2
      omega
    | .hs u d =>
      have h2 : (maxDoc svc + 4) * (nFresh svc vis + 1) + 1 ≤ 0 := hc.2.2
      omega
    | .fields fs cur =>
      have h2 : jsizeF fs + (maxDoc svc + 4) * (nFresh svc vis + 1) + 2 ≤ 0 := hc
      omega
    | .items es cur =>
      have h2 : jsizeI es + (maxDoc svc + 4) * (nFresh svc vis + 1) + 2 ≤ 0 := hc
      omega
  | succ fuel IH =>
    intro t vis hc
    match t with
    | .res u =>
      obtain ⟨hguard, hfuel⟩ := hc
      cases hl : lookupSvc svc (urljoin host u) with
      | none =>
        rw [crawlRun_res_none host outputDir svc sinkFails fuel u vis hl]
        simp
      | some r =>
        obtain ⟨status, body⟩ := r
        by_cases h200 : status = 200
        · subst h200
          cases body with
          | invalid =>
            rw [crawlRun_res_invalid host outputDir svc sinkFails fuel u vis hl]
            simp
          | json d =>
            rw [crawlRun_res_json host outputDir svc sinkFails fuel u vis d hl]
            show (crawlRun host outputDir svc sinkFails fuel
              (.hs (urljoin host u) d) vis).status ≠ .fuelOut
            apply IH
            exact ⟨hguard, ⟨200, hl⟩, by omega⟩
        · rw [crawlRun_res_non200 host outputDir svc sinkFails fuel u vis status body hl h200]
          simp
    | .hs u d =>
      obtain ⟨hvis, ⟨s, hl⟩, hfuel⟩ := hc
      by_cases hsk : sinkFails (savePath outputDir u) = true
      · rw [crawlRun_hs_crash host outputDir svc sinkFails fuel u d vis hsk]
        simp
      · have hsk' : sinkFails (savePath outputDir u) = false := by simpa using hsk
        have hdom : u ∈ domUrls svc := lookupSvc_mem_dom hl
        have hlt : nFresh svc (insertV u vis) < nFresh svc vis := nFresh_insert_lt hdom hvis
        have hsize : jsize d ≤ maxDoc svc := by
          have := respDocSize_le hl
          simpa [respDocSize] using this
        cases d with
        | obj fs =>
          cases hf : lookupField fs "@odata.id" with
          | some cur =>
            rw [crawlRun_hs_obj_some host outputDir svc sinkFails fuel u fs cur vis hsk' hf]
            show (crawlRun host outputDir svc sinkFails fuel
              (.fields fs cur) (insertV u vis)).status ≠ .fuelOut
            apply IH
            show jsizeF fs + (maxDoc svc + 4) * (nFresh svc (insertV u vis) + 1) + 2 ≤ fuel
            have h1 : 1 + jsizeF fs ≤ maxDoc svc := by
              have hj : jsize (Json.obj fs) = 1 + jsizeF fs := by simp [jsize]
              omega
            have hA : (maxDoc svc + 4) * (nFresh svc (insertV u vis) + 1)
                ≤ (maxDoc svc + 4) * nFresh svc vis :=
              Nat.mul_le_mul_left _ (by omega)
            have hBC : (maxDoc svc + 4) * (nFresh svc vis + 1)
                = (maxDoc svc + 4) * nFresh svc vis + (maxDoc svc + 4) :=
              Nat.mul_succ _ _
            omega
          | none =>
            rw [crawlRun_hs_obj_none host outputDir svc sinkFails fuel u fs vis hsk' hf]
            simp
        | arr es =>
          rw [crawlRun_hs_arr host outputDir svc sinkFails fuel u es vis hsk']
          by_cases h : es.any isODataStr <;> simp [h]
        | str s2 =>
          rw [crawlRun_hs_str host outputDir svc sinkFails fuel u s2 vis hsk']
          by_cases h : pyIn "@odata.id" s2 <;> simp [h]
        | num n =>
          rw [crawlRun_hs_num host outputDir svc sinkFails fuel u n vis hsk']
          simp
        | boolean b =>
          rw [crawlRun_hs_boolean host outputDir svc sinkFails fuel u b vis hsk']
          simp
        | null =>
          rw [crawlRun_hs_null host outputDir svc sinkFails fuel u vis hsk']
          simp
    | .fields fs cur =>
      cases fs with
      | nil =>
        rw [crawlRun_fields_nil]
        simp
      | cons kv rest =>
        obtain ⟨key, value⟩ := kv
        have hc : jsizeF ((key, value) :: rest)
            + (maxDoc svc + 4) * (nFresh svc vis + 1) + 2 ≤ fuel + 1 := hc
        have hdecomp : jsizeF ((key, value) :: rest) = 3 + jsize value + jsizeF rest := by
          simp [jsizeF]
        rw [hdecomp] at hc
        have hjv := jsize_pos value
        have hjr := jsizeF_pos rest
        rw [crawlRun_fields_cons]
        have hstep : (fieldStep host outputDir svc sinkFails fuel key value cur vis).status
            ≠ .fuelOut := by
          cases value with
          | str s =>
            by_cases hc2 : (key = "@odata.id" && pyStartsWith s "/redfish/v1") = true
            · by_cases hm : urljoin host s ∈ vis
              · simp [fieldStep, hc2, hm]
              · cases cur with
                | str c =>
                  by_cases hsc : inScope c (urljoin host s) = true
                  · have hred : fieldStep host outputDir svc sinkFails fuel key (.str s)
                        (.str c) vis
                        = crawlRun host outputDir svc sinkFails fuel
                            (.res (urljoin host s)) vis := by
                      simp only [fieldStep, if_pos hc2, if_neg hm, if_pos hsc]
                    rw [hred]
                    apply IH
                    refine ⟨?_, ?_⟩
                    · rw [urljoin_idem host (Bool.and_elim_right hc2)]
                      exact hm
                    · have hj : jsize (Json.str s) = 1 := by simp [jsize]
                      omega
                  · have hsc' : inScope c (urljoin host s) = false := by simpa using hsc
                    simp [fieldStep, hc2, hm, hsc']
                | obj fs1 => simp [fieldStep, hc2, hm]
                | arr es1 => simp [fieldStep, hc2, hm]
                | num n => simp [fieldStep, hc2, hm]
                | boolean b => simp [fieldStep, hc2, hm]
                | null => simp [fieldStep, hc2, hm]
            · have hc2' : (key = "@odata.id" && pyStartsWith s "/redfish/v1") = false := by
                simpa using hc2
              simp [fieldStep, hc2']
          | obj fs1 =>
            show (crawlRun host outputDir svc sinkFails fuel
              (.fields fs1 cur) vis).status ≠ .fuelOut
            apply IH
            show jsizeF fs1 + (maxDoc svc + 4) * (nFresh svc vis + 1) + 2 ≤ fuel
            have hj : jsize (Json.obj fs1) = 1 + jsizeF fs1 := by simp [jsize]
            omega
          | arr es1 =>
            show (crawlRun host outputDir svc sinkFails fuel
              (.items es1 cur) vis).status ≠ .fuelOut
            apply IH
            show jsizeI es1 + (maxDoc svc + 4) * (nFresh svc vis + 1) + 2 ≤ fuel
            have hj : jsize (Json.arr es1) = 1 + jsizeI es1 := by simp [jsize]
            omega
          | num n => simp [fieldStep]
          | boolean b => simp [fieldStep]
          | null => simp [fieldStep]
        have hanti : nFresh svc
            (fieldStep host outputDir svc sinkFails fuel key value cur vis).visited
            ≤ nFresh svc vis :=
          nFresh_anti (fieldStep_mono host outputDir svc sinkFails fuel key value cur vis)
        refine seqRes_status_ne hstep ?_
        apply IH
        show jsizeF rest + (maxDoc svc + 4) *
          (nFresh svc (fieldStep host outputDir svc sinkFails fuel key value cur vis).visited
            + 1) + 2 ≤ fuel
        have hA : (maxDoc svc + 4) *
            (nFresh svc
              (fieldStep host outputDir svc sinkFails fuel key value cur vis).visited + 1)
            ≤ (maxDoc svc + 4) * (nFresh svc vis + 1) :=
          Nat.mul_le_mul_left _ (by omega)
        omega
    | .items es cur =>
      cases es with
      | nil =>
        rw [crawlRun_items_nil]
        simp
      | cons item rest =>
        have hc : jsizeI (item :: rest)
            + (maxDoc svc + 4) * (nFresh svc vis + 1) + 2 ≤ fuel + 1 := hc
        have hdecomp : jsizeI (item :: rest) = 3 + jsize item + jsizeI rest := by
          simp [jsizeI]
        rw [hdecomp] at hc
        have hjv := jsize_pos item
        have hjr := jsizeI_pos rest
        rw [crawlRun_items_cons]
        have hstep : (itemStep host outputDir svc sinkFails fuel item cur vis).status
            ≠ .fuelOut := by
          cases item with
          | obj fs1 =>
            show (crawlRun host outputDir svc sinkFails fuel
              (.fields fs1 cur) vis).status ≠ .fuelOut
            apply IH
            show jsizeF fs1 + (maxDoc svc + 4) * (nFresh svc vis + 1) + 2 ≤ fuel
            have hj : jsize (Json.obj fs1) = 1 + jsizeF fs1 := by simp [jsize]
            omega
          | str s => simp [itemStep]
          | arr es1 => simp [itemStep]
          | num n => simp [itemStep]
          | boolean b => simp [itemStep]
          | null => simp [itemStep]
        have hanti : nFresh svc
            (itemStep host outputDir svc sinkFails fuel item cur vis).visited
            ≤ nFresh svc vis :=
          nFresh_anti (itemStep_mono host outputDir svc sinkFails fuel item cur vis)
        refine seqRes_status_ne hstep ?_
        apply IH
        show jsizeI rest + (maxDoc svc + 4) *
          (nFresh svc (itemStep host outputDir svc sinkFails fuel item cur vis).visited
            + 1) + 2 ≤ fuel
        have hA : (maxDoc svc + 4) *
            (nFresh svc
              (itemStep host outputDir svc sinkFails fuel item cur vis).visited + 1)
            ≤ (maxDoc svc + 4) * (nFresh svc vis + 1) :=
          Nat.mul_le_mul_left _ (by omega)
        omega

/-- C2 (confirmed): every crawl with fuel at least `fuelBound svc` finishes
without exhausting the budget (the recursion terminates on every finite
service, cyclic or not); and on the concrete cyclic service `svcC2` — where
A links to B and B links back to A, each link passing the scope filter — the
crawl ends normally and fetches and saves each of A and B exactly once. -/
theorem c2_cycle_terminates_saves_once :
    (∀ (host outputDir : String) (svc : List (String × Resp))
        (sinkFails : String → Bool) (startResource : String) (fuel : Nat),
        fuelBound svc ≤ fuel →
        (crawl host outputDir svc sinkFails fuel startResource).status ≠ .fuelOut) ∧
    (crawl "h" "out" svcC2 (fun _ => false) 100 "/redfish/v1/C/B/A").status = .normal ∧
    inScope "/redfish/v1/C" "https://h/redfish/v1/C/B" = true ∧
    inScope "/redfish/v1/C/B" "https://h/redfish/v1/C/B/A" = true ∧
    countE (Event.fetch "https://h/redfish/v1/C/B/A")
      (crawl "h" "out" svcC2 (fun _ => false) 100 "/redfish/v1/C/B/A").events = 1 ∧
    countE (Event.save "https://h/redfish/v1/C/B/A")
      (crawl "h" "out" svcC2 (fun _ => false) 100 "/redfish/v1/C/B/A").events = 1 ∧
    countE (Event.fetch "https://h/redfish/v1/C/B")
      (crawl "h" "out" svcC2 (fun _ => false) 100 "/redfish/v1/C/B/A").events = 1 ∧
    countE (Event.save "https://h/redfish/v1/C/B")
      (crawl "h" "out" svcC2 (fun _ => false) 100 "/redfish/v1/C/B/A").events = 1 := by
  refine ⟨?_, by decide, by decide, by decide, by decide, by decide, by decide, by decide⟩
  intro host outputDir svc sinkFails startResource fuel hge
  apply crawlRun_no_fuelOut
  refine ⟨List.not_mem_nil _, ?_⟩
  have h1 : nFresh svc [] ≤ svc.length := nFresh_le_length svc []
  have hA : (maxDoc svc + 4) * (nFresh svc [] + 1)
      ≤ (maxDoc svc + 4) * (svc.length + 1) :=
    Nat.mul_le_mul_left _ (by omega)
  have hB : (maxDoc svc + 4) * (svc.length + 1) + 2 = fuelBound svc := rfl
  omega

/-! ### Link extraction (claim C4) -/

theorem FindsLink.cons_obj {kv : String × Json} {rest : List (String × Json)} {s : String}
    (h : FindsLink (.obj rest) s) : FindsLink (.obj (kv :: rest)) s := by
  cases h with
  | here hm hp => exact .here (List.mem_cons_of_mem _ hm) hp
  | inField hm hf => exact .inField (List.mem_cons_of_mem _ hm) hf

theorem FindsLink.cons_arr {item : Json} {rest : List Json} {s : String}
    (h : FindsLink (.arr rest) s) : FindsLink (.arr (item :: rest)) s := by
  cases h with
  | inItem hm hf => exact .inItem (List.mem_cons_of_mem _ hm) hf

theorem extract_iff_aux : ∀ n : Nat,
    (∀ (fs : List (String × Json)) (s : String), jsizeF fs ≤ n →
      (s ∈ extractLinksF fs ↔ FindsLink (Json.obj fs) s)) ∧
    (∀ (es : List Json) (s : String), jsizeI es ≤ n →
      (s ∈ extractLinksI es ↔ FindsLink (Json.arr es) s)) := by
  intro n
  induction n using Nat.strong_induction_on with
  | _ n IH =>
    constructor
    · intro fs s hsize
      cases fs with
      | nil =>
        rw [show extractLinksF [] = [] from by simp [extractLinksF]]
        refine ⟨fun h => absurd h (List.not_mem_nil _), fun h => ?_⟩
        cases h with
        | here hm _ => exact absurd hm (List.not_mem_nil _)
        | inField hm _ => exact absurd hm (List.not_mem_nil _)
      | cons kv rest =>
        obtain ⟨key, value⟩ := kv
        have hsz : jsizeF ((key, value) :: rest) = 3 + jsize value + jsizeF rest := by
          simp [jsizeF]
        have hjv := jsize_pos value
        have hjr := jsizeF_pos rest
        have hrest := (IH (jsizeF rest) (by omega)).1 rest s le_rfl
        cases value with
        | str s2 =>
          have hunf : extractLinksF ((key, .str s2) :: rest)
              = (if key = "@odata.id" && pyStartsWith s2 "/redfish/v1" then [s2] else [])
                ++ extractLinksF rest := by
            simp [extractLinksF]
          rw [hunf]
          constructor
          · intro hmem
            rcases List.mem_append.mp hmem with h | h
            · by_cases hcond : (key = "@odata.id" && pyStartsWith s2 "/redfish/v1") = true
              · rw [if_pos hcond] at h
                have hs2 : s = s2 := List.mem_singleton.mp h
                subst hs2
                obtain ⟨hk, hp⟩ := Bool.and_eq_true_iff.mp hcond
                have hk' : key = "@odata.id" := of_decide_eq_true hk
                subst hk'
                exact .here (List.mem_cons_self _ _) hp
              · rw [if_neg hcond] at h
                exact absurd h (List.not_mem_nil _)
            · exact FindsLink.cons_obj (hrest.mp h)
          · intro hF
            cases hF with
            | here hm hp =>
              rcases List.mem_cons.mp hm with heq | hm'
              · injection heq with h1 h2
                injection h2 with h3
                subst h3
                apply List.mem_append.mpr
                left
                rw [if_pos (by rw [← h1]; simpa using hp)]
                exact List.mem_singleton.mpr rfl
              · exact List.mem_append.mpr (Or.inr (hrest.mpr (.here hm' hp)))
            | inField hm hf =>
              rcases List.mem_cons.mp hm with heq | hm'
              · injection heq with h1 h2
                rw [h2] at hf
                cases hf
              · exact List.mem_append.mpr (Or.inr (hrest.mpr (.inField hm' hf)))
        | obj fs1 =>
          have hsz1 : jsize (Json.obj fs1) = 1 + jsizeF fs1 := by simp [jsize]
          have hsub := (IH (jsizeF fs1) (by omega)).1 fs1 s le_rfl
          have hunf : extractLinksF ((key, .obj fs1) :: rest)
              = extractLinksF fs1 ++ extractLinksF rest := by
            simp [extractLinksF]
          rw [hunf]
          constructor
          · intro hmem
            rcases List.mem_append.mp hmem with h | h
            · exact .inField (List.mem_cons_self _ _) (hsub.mp h)
            · exact FindsLink.cons_obj (hrest.mp h)
          · intro hF
            cases hF with
            | here hm hp =>
              rcases List.mem_cons.mp hm with heq | hm'
              · injection heq with h1 h2
                cases h2
              · exact List.mem_append.mpr (Or.inr (hrest.mpr (.here hm' hp)))
            | inField hm hf =>
              rcases List.mem_cons.mp hm with heq | hm'
              · injection heq with h1 h2
                rw [h2] at hf
                cases hf with
                | here hm2 hp2 =>
                  exact List.mem_append.mpr (Or.inl (hsub.mpr (.here hm2 hp2)))
                | inField hm2 hf2 =>
                  exact List.mem_append.mpr (Or.inl (hsub.mpr (.inField hm2 hf2)))
              · exact List.mem_append.mpr (Or.inr (hrest.mpr (.inField hm' hf)))
        | arr es1 =>
          have hsz1 : jsize (Json.arr es1) = 1 + jsizeI es1 := by simp [jsize]
          have hsub := (IH (jsizeI es1) (by omega)).2 es1 s le_rfl
          have hunf : extractLinksF ((key, .arr es1) :: rest)
              = extractLinksI es1 ++ extractLinksF rest := by
            simp [extractLinksF]
          rw [hunf]
          constructor
          · intro hmem
            rcases List.mem_append.mp hmem with h | h
            · exact .inField (List.mem_cons_self _ _) (hsub.mp h)
            · exact FindsLink.cons_obj (hrest.mp h)
          · intro hF
            cases hF with
            | here hm hp =>
              rcases List.mem_cons.mp hm with heq | hm'
              · injection heq with h1 h2
                cases h2
              · exact List.mem_append.mpr (Or.inr (hrest.mpr (.here hm' hp)))
            | inField hm hf =>
              rcases List.mem_cons.mp hm with heq | hm'
              · injection heq with h1 h2
                rw [h2] at hf
                cases hf with
                | inItem hm2 hf2 =>
                  exact List.mem_append.mpr (Or.inl (hsub.mpr (.inItem hm2 hf2)))
              · exact List.mem_append.mpr (Or.inr (hrest.mpr (.inField hm' hf)))
        | num m =>
          have hunf : extractLinksF ((key, .num m) :: rest) = extractLinksF rest := by
            simp [extractLinksF]
          rw [hunf]
          constructor
          · intro h
            exact FindsLink.cons_obj (hrest.mp h)
          · intro hF
            cases hF with
            | here hm hp =>
              rcases List.mem_cons.mp hm with heq | hm'
              · injection heq with h1 h2
                cases h2
              · exact hrest.mpr (.here hm' hp)
            | inField hm hf =>
              rcases List.mem_cons.mp hm with heq | hm'
              · injection heq with h1 h2
                rw [h2] at hf
                cases hf
              · exact hrest.mpr (.inField hm' hf)
        | boolean b =>
          have hunf : extractLinksF ((key, .boolean b) :: rest) = extractLinksF rest := by
            simp [extractLinksF]
          rw [hunf]
          constructor
          · intro h
            exact FindsLink.cons_obj (hrest.mp h)
          · intro hF
            cases hF with
            | here hm hp =>
              rcases List.mem_cons.mp hm with heq | hm'
              · injection heq with h1 h2
                cases h2
              · exact hrest.mpr (.here hm' hp)
            | inField hm hf =>
              rcases List.mem_cons.mp hm with heq | hm'
              · injection heq with h1 h2
                rw [h2] at hf
                cases hf
              · exact hrest.mpr (.inField hm' hf)
        | null =>
          have hunf : extractLinksF ((key, .null) :: rest) = extractLinksF rest := by
            simp [extractLinksF]
          rw [hunf]
          constructor
          · intro h
            exact FindsLink.cons_obj (hrest.mp h)
          · intro hF
            cases hF with
            | here hm hp =>
              rcases List.mem_cons.mp hm with heq | hm'
              · injection heq with h1 h2
                cases h2
              · exact hrest.mpr (.here hm' hp)
            | inField hm hf =>
              rcases List.mem_cons.mp hm with heq | hm'
              · injection heq with h1 h2
                rw [h2] at hf
                cases hf
              · exact hrest.mpr (.inField hm' hf)
    · intro es s hsize
      cases es with
      | nil =>
        rw [show extractLinksI [] = [] from by simp [extractLinksI]]
        refine ⟨fun h => absurd h (List.not_mem_nil _), fun h => ?_⟩
        cases h with
        | inItem hm _ => exact absurd hm (List.not_mem_nil _)
      | cons item rest =>
        have hsz : jsizeI (item :: rest) = 3 + jsize item + jsizeI rest := by
          simp [jsizeI]
        have hjv := jsize_pos item
        have hjr := jsizeI_pos rest
        have hrest := (IH (jsizeI rest) (by omega)).2 rest s le_rfl
        cases item with
        | obj fs1 =>
          have hsz1 : jsize (Json.obj fs1) = 1 + jsizeF fs1 := by simp [jsize]
          have hsub := (IH (jsizeF fs1) (by omega)).1 fs1 s le_rfl
          have hunf : extractLinksI (Json.obj fs1 :: rest)
              = extractLinksF fs1 ++ extractLinksI rest := by
            simp [extractLinksI]
          rw [hunf]
          constructor
          · intro hmem
            rcases List.mem_append.mp hmem with h | h
            · exact .inItem (List.mem_cons_self _ _) (hsub.mp h)
            · exact FindsLink.cons_arr (hrest.mp h)
          · intro hF
            cases hF with
            | inItem hm hf =>
              rcases List.mem_cons.mp hm with heq | hm'
              · injection heq with h1
                subst h1
                exact List.mem_append.mpr (Or.inl (hsub.mpr hf))
              · exact List.mem_append.mpr (Or.inr (hrest.mpr (.inItem hm' hf)))
        | str s2 =>
          have hunf : extractLinksI (Json.str s2 :: rest) = extractLinksI rest := by
            simp [extractLinksI]
          rw [hunf]
          constructor
          · intro h
            exact FindsLink.cons_arr (hrest.mp h)
          · intro hF
            cases hF with
            | inItem hm hf =>
              rcases List.mem_cons.mp hm with heq | hm'
              · cases heq
              · exact hrest.mpr (.inItem hm' hf)
        | arr es1 =>
          have hunf : extractLinksI (Json.arr es1 :: rest) = extractLinksI rest := by
            simp [extractLinksI]
          rw [hunf]
          constructor
          · intro h
            exact FindsLink.cons_arr (hrest.mp h)
          · intro hF
            cases hF with
            | inItem hm hf =>
              rcases List.mem_cons.mp hm with heq | hm'
              · cases heq
              · exact hrest.mpr (.inItem hm' hf)
        | num m =>
          have hunf : extractLinksI (Json.num m :: rest) = extractLinksI rest := by
            simp [extractLinksI]
          rw [hunf]
          constructor
          · intro h
            exact FindsLink.cons_arr (hrest.mp h)
          · intro hF
            cases hF with
            | inItem hm hf =>
              rcases List.mem_cons.mp hm with heq | hm'
              · cases heq
              · exact hrest.mpr (.inItem hm' hf)
        | boolean b =>
          have hunf : extractLinksI (Json.boolean b :: rest) = extractLinksI rest := by
            simp [extractLinksI]
          rw [hunf]
          constructor
          · intro h
            exact FindsLink.cons_arr (hrest.mp h)
          · intro hF
            cases hF with
            | inItem hm hf =>
              rcases List.mem_cons.mp hm with heq | hm'
              · cases heq
              · exact hrest.mpr (.inItem hm' hf)
        | null =>
          have hunf : extractLinksI (Json.null :: rest) = extractLinksI rest := by
            simp [extractLinksI]
          rw [hunf]
          constructor
          · intro h
            exact FindsLink.cons_arr (hrest.mp h)
          · intro hF
            cases hF with
            | inItem hm hf =>
              rcases List.mem_cons.mp hm with heq | hm'
              · cases heq
              · exact hrest.mpr (.inItem hm' hf)

/-- C4 counterexample: extraction does NOT find candidates inside arrays
nested directly within arrays: `docC4` holds the candidate
`/redfish/v1/C/X` inside an array-in-array (the spec's walk, `SpecFindsLink`,
reaches it), yet the code's extraction misses it, and the crawl over `svcC4`
never fetches the resource it names even though the service serves it. -/
theorem c4_counterexample :
    SpecFindsLink docC4 "/redfish/v1/C/X" ∧
    "/redfish/v1/C/X" ∉ extractLinks docC4 ∧
    countE (Event.fetch "https://h/redfish/v1/C/X")
      (crawl "h" "out" svcC4 (fun _ => false) 30 "/redfish/v1/C").events = 0 := by
  refine ⟨?_, ?_, by decide⟩
  · apply SpecFindsLink.inField
      (k := "Nested")
      (v := Json.arr [.arr [.obj [("@odata.id", .str "/redfish/v1/C/X")]]])
      (by simp [docC4])
    apply SpecFindsLink.inItem
      (v := Json.arr [.obj [("@odata.id", .str "/redfish/v1/C/X")]])
      (by simp)
    apply SpecFindsLink.inItem
      (v := Json.obj [("@odata.id", .str "/redfish/v1/C/X")])
      (by simp)
    exact SpecFindsLink.here (by simp) (by decide)
  · have he : extractLinks docC4 = ["/redfish/v1/C"] := by
      simp [docC4, extractLinks, extractLinksF, extractLinksI, pyStartsWith]
    rw [he]
    decide

/-- C4 (corrected): link extraction emits exactly the `@odata.id` string
values with the `/redfish/v1` prefix that are reachable by recursing into
nested object values and into objects occurring directly as array elements
(`FindsLink`); candidates behind any other nesting — in particular inside
arrays nested directly within arrays — are not found. -/
theorem c4_amended : ∀ (d : Json) (s : String), s ∈ extractLinks d ↔ FindsLink d s := by
  intro d s
  cases d with
  | obj fs =>
    rw [show extractLinks (.obj fs) = extractLinksF fs from by simp [extractLinks]]
    exact (extract_iff_aux (jsizeF fs)).1 fs s le_rfl
  | arr es =>
    rw [show extractLinks (.arr es) = extractLinksI es from by simp [extractLinks]]
    exact (extract_iff_aux (jsizeI es)).2 es s le_rfl
  | str s2 =>
    rw [show extractLinks (.str s2) = [] from by simp [extractLinks]]
    exact ⟨fun h => absurd h (List.not_mem_nil _), fun h => nomatch h⟩
  | num m =>
    rw [show extractLinks (.num m) = [] from by simp [extractLinks]]
    exact ⟨fun h => absurd h (List.not_mem_nil _), fun h => nomatch h⟩
  | boolean b =>
    rw [show extractLinks (.boolean b) = [] from by simp [extractLinks]]
    exact ⟨fun h => absurd h (List.not_mem_nil _), fun h => nomatch h⟩
  | null =>
    rw [show extractLinks .null = [] from by simp [extractLinks]]
    exact ⟨fun h => absurd h (List.not_mem_nil _), fun h => nomatch h⟩

/-! ### Exactness of the crawl (claim C8) -/

theorem seqRes_eq_normal {r1 : Res} {k : List String → Res} (h : r1.status = .normal) :
    seqRes r1 k = ⟨(k r1.visited).visited, r1.events ++ (k r1.visited).events,
      (k r1.visited).status⟩ := by
  simp [seqRes, h]

theorem seqRes_eq_abort {r1 : Res} {k : List String → Res} (h : r1.status ≠ .normal) :
    seqRes r1 k = r1 := by
  cases hst : r1.status with
  | normal => exact absurd hst h
  | crashed => simp [seqRes, hst]
  | fuelOut => simp [seqRes, hst]

/-- Combining the exactness facts of a loop element with those of the rest
of the loop. -/
theorem exact_seq_aux {host outputDir : String} {svc : List (String × Resp)}
    {sinkFails : String → Bool} {fuel : Nat}
    {r1 : Res} {contTask : Task} (start : String) (partCands restCands : List String)
    (hA1 : ∀ v, 0 < countE (Event.fetch v) r1.events → Reach host svc start v)
    (hA2 : r1.status = .normal → ∀ v,
      countE (Event.save v) r1.events = countE (Event.fetch v) r1.events)
    (hA3 : r1.status = .normal → ∀ s ∈ partCands, urljoin host s ∈ r1.visited)
    (hA4 : r1.status = .normal → ClosedEv host svc r1.events r1.visited)
    (hB1 : ∀ v, 0 < countE (Event.fetch v)
        (crawlRun host outputDir svc sinkFails fuel contTask r1.visited).events →
      Reach host svc start v)
    (hB2 : (crawlRun host outputDir svc sinkFails fuel contTask r1.visited).status
        = .normal → ∀ v,
      countE (Event.save v)
          (crawlRun host outputDir svc sinkFails fuel contTask r1.visited).events
        = countE (Event.fetch v)
            (crawlRun host outputDir svc sinkFails fuel contTask r1.visited).events)
    (hB3 : (crawlRun host outputDir svc sinkFails fuel contTask r1.visited).status
        = .normal → ∀ s ∈ restCands,
      urljoin host s
        ∈ (crawlRun host outputDir svc sinkFails fuel contTask r1.visited).visited)
    (hB4 : (crawlRun host outputDir svc sinkFails fuel contTask r1.visited).status
        = .normal →
      ClosedEv host svc
        (crawlRun host outputDir svc sinkFails fuel contTask r1.visited).events
        (crawlRun host outputDir svc sinkFails fuel contTask r1.visited).visited)
    (hmono2 : ∀ v, v ∈ r1.visited →
      v ∈ (crawlRun host outputDir svc sinkFails fuel contTask r1.visited).visited) :
    (∀ v, 0 < countE (Event.fetch v)
        (seqRes r1 (fun vis' =>
          crawlRun host outputDir svc sinkFails fuel contTask vis')).events →
      Reach host svc start v) ∧
    ((seqRes r1 (fun vis' =>
        crawlRun host outputDir svc sinkFails fuel contTask vis')).status = .normal →
      (∀ v, countE (Event.save v)
            (seqRes r1 (fun vis' =>
              crawlRun host outputDir svc sinkFails fuel contTask vis')).events
          = countE (Event.fetch v)
              (seqRes r1 (fun vis' =>
                crawlRun host outputDir svc sinkFails fuel contTask vis')).events) ∧
      (∀ s ∈ partCands ++ restCands,
        urljoin host s ∈ (seqRes r1 (fun vis' =>
          crawlRun host outputDir svc sinkFails fuel contTask vis')).visited) ∧
      ClosedEv host svc
        (seqRes r1 (fun vis' =>
          crawlRun host outputDir svc sinkFails fuel contTask vis')).events
        (seqRes r1 (fun vis' =>
          crawlRun host outputDir svc sinkFails fuel contTask vis')).visited) := by
  by_cases hst : r1.status = .normal
  · rw [seqRes_eq_normal hst]
    refine ⟨?_, ?_⟩
    · intro v hv
      rw [show (⟨(crawlRun host outputDir svc sinkFails fuel contTask r1.visited).visited,
          r1.events ++ (crawlRun host outputDir svc sinkFails fuel contTask r1.visited).events,
          (crawlRun host outputDir svc sinkFails fuel contTask r1.visited).status⟩ : Res).events
          = r1.events
            ++ (crawlRun host outputDir svc sinkFails fuel contTask r1.visited).events
          from rfl, countE_append] at hv
      rcases Nat.lt_or_ge 0 (countE (Event.fetch v) r1.events) with h | h
      · exact hA1 v h
      · exact hB1 v (by omega)
    · intro hst2
      have hst2' : (crawlRun host outputDir svc sinkFails fuel contTask r1.visited).status
          = .normal := hst2
      refine ⟨?_, ?_, ?_⟩
      · intro v
        show countE (Event.save v) (r1.events ++ _) = countE (Event.fetch v) (r1.events ++ _)
        rw [countE_append, countE_append, hA2 hst v, hB2 hst2' v]
      · intro s hs
        rcases List.mem_append.mp hs with h | h
        · exact hmono2 _ (hA3 hst s h)
        · exact hB3 hst2' s h
      · intro v fs2 hsv hlv s hs
        rcases List.mem_append.mp hsv with h | h
        · exact hmono2 _ (hA4 hst v fs2 h hlv s hs)
        · exact hB4 hst2' v fs2 h hlv s hs
  · rw [seqRes_eq_abort hst]
    exact ⟨hA1, fun h => absurd h hst⟩

/-- The exactness bundle: under the C8 premises, every fetched URL is
reachable; when a (sub)run finishes normally, saves and fetches pair up
(every fetch succeeded), the task's obligations are registered in the
visited set, and the log is closed. -/
theorem crawlRun_exact (host outputDir : String) (svc : List (String × Resp))
    (sinkFails : String → Bool) (start : String)
    (hsk : ∀ p, sinkFails p = false) (hh : C8Hyp host svc) :
    ∀ (fuel : Nat) (t : Task) (vis : List String), exTask host svc start t →
      (∀ v, 0 < countE (Event.fetch v)
          (crawlRun host outputDir svc sinkFails fuel t vis).events →
        Reach host svc start v) ∧
      ((crawlRun host outputDir svc sinkFails fuel t vis).status = .normal →
        (∀ v, countE (Event.save v)
              (crawlRun host outputDir svc sinkFails fuel t vis).events
            = countE (Event.fetch v)
                (crawlRun host outputDir svc sinkFails fuel t vis).events
              + savedHere t v) ∧
        doneTask host t (crawlRun host outputDir svc sinkFails fuel t vis).visited ∧
        ClosedEv host svc (crawlRun host outputDir svc sinkFails fuel t vis).events
          (crawlRun host outputDir svc sinkFails fuel t vis).visited) := by
  intro fuel
  induction fuel with
  | zero =>
    intro t vis ht
    rw [crawlRun_zero]
    refine ⟨?_, ?_⟩
    · intro v hv
      simp [countE] at hv
    · intro h
      exact absurd h (by simp)
  | succ fuel IH =>
    intro t vis ht
    match t with
    | .res u =>
      obtain ⟨hreach, hdom⟩ := ht
      obtain ⟨r0, hl0⟩ := Option.isSome_iff_exists.mp hdom
      obtain ⟨fs, cur, hshape, hid, hcands⟩ := hh _ (lookupSvc_mem hl0)
      have hr0 : r0 = Resp.http 200 (Body.json (Json.obj fs)) := hshape
      subst hr0
      rw [crawlRun_res_json host outputDir svc sinkFails fuel u vis (Json.obj fs) hl0]
      have hex_hs : exTask host svc start (.hs (urljoin host u) (Json.obj fs)) :=
        ⟨hreach, hl0⟩
      obtain ⟨ih1, ih2⟩ := IH (.hs (urljoin host u) (Json.obj fs)) vis hex_hs
      refine ⟨?_, ?_⟩
      · intro v hv
        by_cases hvu : v = urljoin host u
        · exact hvu ▸ hreach
        · apply ih1 v
          have hne : ¬ (urljoin host u = v) := fun h => hvu h.symm
          show 0 < countE (Event.fetch v)
            (crawlRun host outputDir svc sinkFails fuel
              (.hs (urljoin host u) (Json.obj fs)) vis).events
          have he : countE (Event.fetch v)
              (Event.fetch (urljoin host u)
                :: (crawlRun host outputDir svc sinkFails fuel
                    (.hs (urljoin host u) (Json.obj fs)) vis).events)
              = countE (Event.fetch v)
                  (crawlRun host outputDir svc sinkFails fuel
                    (.hs (urljoin host u) (Json.obj fs)) vis).events := by
            simp [countE, hne]
          rw [show (⟨_, Event.fetch (urljoin host u)
              :: (crawlRun host outputDir svc sinkFails fuel
                  (.hs (urljoin host u) (Json.obj fs)) vis).events, _⟩ : Res).events
              = Event.fetch (urljoin host u)
                :: (crawlRun host outputDir svc sinkFails fuel
                    (.hs (urljoin host u) (Json.obj fs)) vis).events from rfl,
            he] at hv
          exact hv
      · intro hst
        have hst' : (crawlRun host outputDir svc sinkFails fuel
            (.hs (urljoin host u) (Json.obj fs)) vis).status = .normal := hst
        obtain ⟨hE2, hdone, hclosed⟩ := ih2 hst'
        refine ⟨?_, ?_, ?_⟩
        · intro v
          have h2' : countE (Event.save v)
              (crawlRun host outputDir svc sinkFails fuel
                (.hs (urljoin host u) (Json.obj fs)) vis).events
              = countE (Event.fetch v)
                  (crawlRun host outputDir svc sinkFails fuel
                    (.hs (urljoin host u) (Json.obj fs)) vis).events
                + (if v = urljoin host u then 1 else 0) := hE2 v
          show countE (Event.save v) (Event.fetch (urljoin host u) :: _)
            = countE (Event.fetch v) (Event.fetch (urljoin host u) :: _)
              + savedHere (Task.res u) v
          rw [show savedHere (Task.res u) v = 0 from rfl, countE_cons, countE_cons,
            if_neg (show ¬ (Event.fetch (urljoin host u) = Event.save v) by simp)]
          by_cases hvu : v = urljoin host u
          · rw [if_pos (show Event.fetch (urljoin host u) = Event.fetch v by rw [hvu])]
            rw [if_pos hvu] at h2'
            omega
          · rw [if_neg (show ¬ (Event.fetch (urljoin host u) = Event.fetch v) by
                intro hcl
                injection hcl with hx
                exact hvu hx.symm)]
            rw [if_neg hvu] at h2'
            omega
        · exact hdone.1
        · intro v fs2 hsv hlv s hs
          apply hclosed v fs2 ?_ hlv s hs
          rcases List.mem_cons.mp hsv with h | h
          · exact absurd h (by simp)
          · exact h
    | .hs u d =>
      obtain ⟨hreach, hl⟩ := ht
      obtain ⟨fs, cur, hshape, hid, hcands⟩ := hh _ (lookupSvc_mem hl)
      have hd : Resp.http 200 (Body.json d) = Resp.http 200 (Body.json (Json.obj fs)) :=
        hshape
      injection hd with h1 h2
      injection h2 with h3
      subst h3
      have hsk' : sinkFails (savePath outputDir u) = false := hsk _
      rw [crawlRun_hs_obj_some host outputDir svc sinkFails fuel u fs (.str cur) vis
        hsk' hid]
      have hex_f : exTask host svc start (.fields fs (Json.str cur)) := by
        refine ⟨cur, rfl, ?_⟩
        intro s hs
        obtain ⟨hd1, hd2⟩ := hcands s hs
        refine ⟨hd1, hd2, Reach.step hreach hl ?_⟩
        rw [show extractLinks (Json.obj fs) = extractLinksF fs from by
          simp [extractLinks]]
        exact hs
      obtain ⟨ih1, ih2⟩ := IH (.fields fs (.str cur)) (insertV u vis) hex_f
      have hmono := (crawlRun_sane host outputDir svc sinkFails fuel
        (.fields fs (.str cur)) (insertV u vis)).1.mono
      refine ⟨?_, ?_⟩
      · intro v hv
        apply ih1 v
        show 0 < countE (Event.fetch v)
          (crawlRun host outputDir svc sinkFails fuel
            (.fields fs (.str cur)) (insertV u vis)).events
        have he : countE (Event.fetch v)
            (Event.save u
              :: (crawlRun host outputDir svc sinkFails fuel
                  (.fields fs (.str cur)) (insertV u vis)).events)
            = countE (Event.fetch v)
                (crawlRun host outputDir svc sinkFails fuel
                  (.fields fs (.str cur)) (insertV u vis)).events := by
          simp [countE]
        rw [show (⟨_, Event.save u
            :: (crawlRun host outputDir svc sinkFails fuel
                (.fields fs (.str cur)) (insertV u vis)).events, _⟩ : Res).events
            = Event.save u
              :: (crawlRun host outputDir svc sinkFails fuel
                  (.fields fs (.str cur)) (insertV u vis)).events from rfl,
          he] at hv
        exact hv
      · intro hst
        have hst' : (crawlRun host outputDir svc sinkFails fuel
            (.fields fs (.str cur)) (insertV u vis)).status = .normal := hst
        obtain ⟨hE2, hdone, hclosed⟩ := ih2 hst'
        refine ⟨?_, ?_, ?_⟩
        · intro v
          have h2' : countE (Event.save v)
              (crawlRun host outputDir svc sinkFails fuel
                (.fields fs (.str cur)) (insertV u vis)).events
              = countE (Event.fetch v)
                  (crawlRun host outputDir svc sinkFails fuel
                    (.fields fs (.str cur)) (insertV u vis)).events := by
            simpa [savedHere] using hE2 v
          show countE (Event.save v) (Event.save u :: _)
            = countE (Event.fetch v) (Event.save u :: _) + savedHere (Task.hs u _) v
          rw [countE_cons, countE_cons,
            show savedHere (Task.hs u (Json.obj fs)) v = if v = u then 1 else 0 from rfl,
            if_neg (show ¬ (Event.save u = Event.fetch v) by simp)]
          by_cases hvu : v = u
          · rw [if_pos (show Event.save u = Event.save v by rw [hvu]), if_pos hvu]
            omega
          · rw [if_neg (show ¬ (Event.save u = Event.save v) by
                intro hcl
                injection hcl with hx
                exact hvu hx.symm)]
            rw [if_neg hvu]
            omega
        · refine ⟨hmono u (self_mem_insertV u vis), ?_⟩
          intro s hs
          apply hdone
          rw [show extractLinks (Json.obj fs) = extractLinksF fs from by
            simp [extractLinks]] at hs
          exact hs
        · intro v fs2 hsv hlv s hs
          rcases List.mem_cons.mp hsv with h | h
          · have hvu : v = u := by injection h
            subst hvu
            rw [hl] at hlv
            injection hlv with hx1
            injection hx1 with hx2 hx3
            injection hx3 with hx4
            injection hx4 with hx5
            subst hx5
            exact hdone s hs
          · exact hclosed v fs2 h hlv s hs
    | .fields fs0 cur =>
      obtain ⟨c, hcur, hcond⟩ := ht
      subst hcur
      cases fs0 with
      | nil =>
        rw [crawlRun_fields_nil]
        refine ⟨?_, ?_⟩
        · intro v hv
          simp [countE] at hv
        · intro _
          refine ⟨fun v => by simp [countE, savedHere], ?_, ?_⟩
          · show ∀ s ∈ extractLinksF [], urljoin host s ∈ vis
            intro s hs
            rw [show extractLinksF [] = [] from by simp [extractLinksF]] at hs
            exact absurd hs (List.not_mem_nil _)
          · intro v fs2 hsv
            exact absurd hsv (List.not_mem_nil _)
      | cons kv rest =>
        obtain ⟨key, value⟩ := kv
        rw [crawlRun_fields_cons]
        have hcont : exTask host svc start (.fields rest (.str c)) := by
          refine ⟨c, rfl, ?_⟩
          intro s hs
          apply hcond s
          cases value with
          | str s2 =>
            rw [show extractLinksF ((key, Json.str s2) :: rest)
                = (if key = "@odata.id" && pyStartsWith s2 "/redfish/v1"
                    then [s2] else []) ++ extractLinksF rest from by
              simp [extractLinksF]]
            exact List.mem_append.mpr (Or.inr hs)
          | obj fs1 =>
            rw [show extractLinksF ((key, Json.obj fs1) :: rest)
                = extractLinksF fs1 ++ extractLinksF rest from by simp [extractLinksF]]
            exact List.mem_append.mpr (Or.inr hs)
          | arr es1 =>
            rw [show extractLinksF ((key, Json.arr es1) :: rest)
                = extractLinksI es1 ++ extractLinksF rest from by simp [extractLinksF]]
            exact List.mem_append.mpr (Or.inr hs)
          | num m =>
            rw [show extractLinksF ((key, Json.num m) :: rest)
                = extractLinksF rest from by simp [extractLinksF]]
            exact hs
          | boolean b =>
            rw [show extractLinksF ((key, Json.boolean b) :: rest)
                = extractLinksF rest from by simp [extractLinksF]]
            exact hs
          | null =>
            rw [show extractLinksF ((key, Json.null) :: rest)
                = extractLinksF rest from by simp [extractLinksF]]
            exact hs
        obtain ⟨hB1, hB2x⟩ := IH (.fields rest (.str c))
          (fieldStep host outputDir svc sinkFails fuel key value (.str c) vis).visited hcont
        have hB2 := fun h v => by
          simpa [savedHere] using (hB2x h).1 v
        have hB3 := fun h => (hB2x h).2.1
        have hB4 := fun h => (hB2x h).2.2
        have hmono2 := (crawlRun_sane host outputDir svc sinkFails fuel
          (.fields rest (.str c))
          (fieldStep host outputDir svc sinkFails fuel key value (.str c) vis).visited).1.mono
        cases value with
        | str s2 =>
          by_cases hc2 : (key = "@odata.id" && pyStartsWith s2 "/redfish/v1") = true
          · have hunf : extractLinksF ((key, Json.str s2) :: rest)
                = [s2] ++ extractLinksF rest := by simp [extractLinksF, hc2]
            have hs2mem : s2 ∈ extractLinksF ((key, Json.str s2) :: rest) := by
              rw [hunf]
              exact List.mem_append.mpr (Or.inl (List.mem_singleton.mpr rfl))
            obtain ⟨hdom2, hscope2, hreach2⟩ := hcond s2 hs2mem
            by_cases hm : urljoin host s2 ∈ vis
            · have hred : fieldStep host outputDir svc sinkFails fuel key
                  (Json.str s2) (Json.str c) vis = ⟨vis, [], .normal⟩ := by
                simp only [fieldStep, if_pos hc2, if_pos hm]
              obtain ⟨hc1, hcc⟩ := exact_seq_aux start
                ([s2]) (extractLinksF rest)
                (fun v hv => by rw [hred] at hv; simp [countE] at hv)
                (fun _ v => by rw [hred]; simp [countE])
                (fun _ s hs => by
                  rw [hred, List.mem_singleton.mp hs]
                  exact hm)
                (fun _ v fs2 hsv => by rw [hred] at hsv; simp at hsv)
                hB1 hB2 hB3 hB4 hmono2
              refine ⟨hc1, ?_⟩
              intro hstn
              obtain ⟨e2, done, closed⟩ := hcc hstn
              refine ⟨fun v => by simpa [savedHere] using e2 v, ?_, closed⟩
              show ∀ s ∈ extractLinksF ((key, Json.str s2) :: rest), urljoin host s ∈ _
              rw [hunf]
              exact done
            · have hred : fieldStep host outputDir svc sinkFails fuel key
                  (Json.str s2) (Json.str c) vis
                  = crawlRun host outputDir svc sinkFails fuel
                      (.res (urljoin host s2)) vis := by
                simp only [fieldStep, if_pos hc2, if_neg hm, if_pos hscope2]
              have hidem := urljoin_idem host (Bool.and_elim_right hc2)
              have hex_r : exTask host svc start (.res (urljoin host s2)) := by
                refine ⟨?_, ?_⟩
                · rw [hidem]
                  exact hreach2
                · rw [hidem]
                  exact hdom2
              obtain ⟨jh1, jh2⟩ := IH (.res (urljoin host s2)) vis hex_r
              obtain ⟨hc1, hcc⟩ := exact_seq_aux start
                ([s2]) (extractLinksF rest)
                (fun v hv => by rw [hred] at hv; exact jh1 v hv)
                (fun h v => by
                  rw [hred] at h ⊢
                  simpa [savedHere] using (jh2 h).1 v)
                (fun h s hs => by
                  rw [hred] at h ⊢
                  rw [List.mem_singleton.mp hs]
                  have hdone' : urljoin host (urljoin host s2)
                      ∈ (crawlRun host outputDir svc sinkFails fuel
                          (.res (urljoin host s2)) vis).visited := (jh2 h).2.1
                  rwa [hidem] at hdone')
                (fun h v fs2 hsv hlv s hs => by
                  rw [hred] at h hsv ⊢
                  exact (jh2 h).2.2 v fs2 hsv hlv s hs)
                hB1 hB2 hB3 hB4 hmono2
              refine ⟨hc1, ?_⟩
              intro hstn
              obtain ⟨e2, done, closed⟩ := hcc hstn
              refine ⟨fun v => by simpa [savedHere] using e2 v, ?_, closed⟩
              show ∀ s ∈ extractLinksF ((key, Json.str s2) :: rest), urljoin host s ∈ _
              rw [hunf]
              exact done
          · have hc2' : (key = "@odata.id" && pyStartsWith s2 "/redfish/v1") = false := by
              simpa using hc2
            have hunf : extractLinksF ((key, Json.str s2) :: rest)
                = [] ++ extractLinksF rest := by simp [extractLinksF, hc2']
            have hred : fieldStep host outputDir svc sinkFails fuel key
                (Json.str s2) (Json.str c) vis = ⟨vis, [], .normal⟩ := by
              simp only [fieldStep, hc2', Bool.false_eq_true, if_false]
            obtain ⟨hc1, hcc⟩ := exact_seq_aux start
              ([]) (extractLinksF rest)
              (fun v hv => by rw [hred] at hv; simp [countE] at hv)
              (fun _ v => by rw [hred]; simp [countE])
              (fun _ s hs => absurd hs (List.not_mem_nil _))
              (fun _ v fs2 hsv => by rw [hred] at hsv; simp at hsv)
              hB1 hB2 hB3 hB4 hmono2
            refine ⟨hc1, ?_⟩
            intro hstn
            obtain ⟨e2, done, closed⟩ := hcc hstn
            refine ⟨fun v => by simpa [savedHere] using e2 v, ?_, closed⟩
            show ∀ s ∈ extractLinksF ((key, Json.str s2) :: rest), urljoin host s ∈ _
            rw [hunf]
            exact done
        | obj fs1 =>
          have hunf : extractLinksF ((key, Json.obj fs1) :: rest)
              = extractLinksF fs1 ++ extractLinksF rest := by simp [extractLinksF]
          have hex_sub : exTask host svc start (.fields fs1 (.str c)) := by
            refine ⟨c, rfl, ?_⟩
            intro s hs
            apply hcond s
            rw [hunf]
            exact List.mem_append.mpr (Or.inl hs)
          obtain ⟨jh1, jh2⟩ := IH (.fields fs1 (.str c)) vis hex_sub
          obtain ⟨hc1, hcc⟩ := exact_seq_aux start
            (extractLinksF fs1) (extractLinksF rest)
            jh1
            (fun h v => by simpa [savedHere] using (jh2 h).1 v)
            (fun h => (jh2 h).2.1)
            (fun h => (jh2 h).2.2)
            hB1 hB2 hB3 hB4 hmono2
          refine ⟨hc1, ?_⟩
          intro hstn
          obtain ⟨e2, done, closed⟩ := hcc hstn
          refine ⟨fun v => by simpa [savedHere] using e2 v, ?_, closed⟩
          show ∀ s ∈ extractLinksF ((key, Json.obj fs1) :: rest), urljoin host s ∈ _
          rw [hunf]
          exact done
        | arr es1 =>
          have hunf : extractLinksF ((key, Json.arr es1) :: rest)
              = extractLinksI es1 ++ extractLinksF rest := by simp [extractLinksF]
          have hex_sub : exTask host svc start (.items es1 (.str c)) := by
            refine ⟨c, rfl, ?_⟩
            intro s hs
            apply hcond s
            rw [hunf]
            exact List.mem_append.mpr (Or.inl hs)
          obtain ⟨jh1, jh2⟩ := IH (.items es1 (.str c)) vis hex_sub
          obtain ⟨hc1, hcc⟩ := exact_seq_aux start
            (extractLinksI es1) (extractLinksF rest)
            jh1
            (fun h v => by simpa [savedHere] using (jh2 h).1 v)
            (fun h => (jh2 h).2.1)
            (fun h => (jh2 h).2.2)
            hB1 hB2 hB3 hB4 hmono2
          refine ⟨hc1, ?_⟩
          intro hstn
          obtain ⟨e2, done, closed⟩ := hcc hstn
          refine ⟨fun v => by simpa [savedHere] using e2 v, ?_, closed⟩
          show ∀ s ∈ extractLinksF ((key, Json.arr es1) :: rest), urljoin host s ∈ _
          rw [hunf]
          exact done
        | num m =>
          have hunf : extractLinksF ((key, Json.num m) :: rest)
              = [] ++ extractLinksF rest := by simp [extractLinksF]
          obtain ⟨hc1, hcc⟩ := exact_seq_aux start
            ([]) (extractLinksF rest)
            (fun v hv => by simp [fieldStep, countE] at hv)
            (fun _ v => by simp [fieldStep, countE])
            (fun _ s hs => absurd hs (List.not_mem_nil _))
            (fun _ v fs2 hsv => by simp [fieldStep] at hsv)
            hB1 hB2 hB3 hB4 hmono2
          refine ⟨hc1, ?_⟩
          intro hstn
          obtain ⟨e2, done, closed⟩ := hcc hstn
          refine ⟨fun v => by simpa [savedHere] using e2 v, ?_, closed⟩
          show ∀ s ∈ extractLinksF ((key, Json.num m) :: rest), urljoin host s ∈ _
          rw [hunf]
          exact done
        | boolean b =>
          have hunf : extractLinksF ((key, Json.boolean b) :: rest)
              = [] ++ extractLinksF rest := by simp [extractLinksF]
          obtain ⟨hc1, hcc⟩ := exact_seq_aux start
            ([]) (extractLinksF rest)
            (fun v hv => by simp [fieldStep, countE] at hv)
            (fun _ v => by simp [fieldStep, countE])
            (fun _ s hs => absurd hs (List.not_mem_nil _))
            (fun _ v fs2 hsv => by simp [fieldStep] at hsv)
            hB1 hB2 hB3 hB4 hmono2
          refine ⟨hc1, ?_⟩
          intro hstn
          obtain ⟨e2, done, closed⟩ := hcc hstn
          refine ⟨fun v => by simpa [savedHere] using e2 v, ?_, closed⟩
          show ∀ s ∈ extractLinksF ((key, Json.boolean b) :: rest), urljoin host s ∈ _
          rw [hunf]
          exact done
        | null =>
          have hunf : extractLinksF ((key, Json.null) :: rest)
              = [] ++ extractLinksF rest := by simp [extractLinksF]
          obtain ⟨hc1, hcc⟩ := exact_seq_aux start
            ([]) (extractLinksF rest)
            (fun v hv => by simp [fieldStep, countE] at hv)
            (fun _ v => by simp [fieldStep, countE])
            (fun _ s hs => absurd hs (List.not_mem_nil _))
            (fun _ v fs2 hsv => by simp [fieldStep] at hsv)
            hB1 hB2 hB3 hB4 hmono2
          refine ⟨hc1, ?_⟩
          intro hstn
          obtain ⟨e2, done, closed⟩ := hcc hstn
          refine ⟨fun v => by simpa [savedHere] using e2 v, ?_, closed⟩
          show ∀ s ∈ extractLinksF ((key, Json.null) :: rest), urljoin host s ∈ _
          rw [hunf]
          exact done
    | .items es0 cur =>
      obtain ⟨c, hcur, hcond⟩ := ht
      subst hcur
      cases es0 with
      | nil =>
        rw [crawlRun_items_nil]
        refine ⟨?_, ?_⟩
        · intro v hv
          simp [countE] at hv
        · intro _
          refine ⟨fun v => by simp [countE, savedHere], ?_, ?_⟩
          · show ∀ s ∈ extractLinksI [], urljoin host s ∈ vis
            intro s hs
            rw [show extractLinksI [] = [] from by simp [extractLinksI]] at hs
            exact absurd hs (List.not_mem_nil _)
          · intro v fs2 hsv
            exact absurd hsv (List.not_mem_nil _)
      | cons item rest =>
        rw [crawlRun_items_cons]
        have hcont : exTask host svc start (.items rest (.str c)) := by
          refine ⟨c, rfl, ?_⟩
          intro s hs
          apply hcond s
          cases item with
          | obj fs1 =>
            rw [show extractLinksI (Json.obj fs1 :: rest)
                = extractLinksF fs1 ++ extractLinksI rest from by simp [extractLinksI]]
            exact List.mem_append.mpr (Or.inr hs)
          | str s2 =>
            rw [show extractLinksI (Json.str s2 :: rest) = extractLinksI rest from by
              simp [extractLinksI]]
            exact hs
          | arr es1 =>
            rw [show extractLinksI (Json.arr es1 :: rest) = extractLinksI rest from by
              simp [extractLinksI]]
            exact hs
          | num m =>
            rw [show extractLinksI (Json.num m :: rest) = extractLinksI rest from by
              simp [extractLinksI]]
            exact hs
          | boolean b =>
            rw [show extractLinksI (Json.boolean b :: rest) = extractLinksI rest from by
              simp [extractLinksI]]
            exact hs
          | null =>
            rw [show extractLinksI (Json.null :: rest) = extractLinksI rest from by
              simp [extractLinksI]]
            exact hs
        obtain ⟨hB1, hB2x⟩ := IH (.items rest (.str c))
          (itemStep host outputDir svc sinkFails fuel item (.str c) vis).visited hcont
        have hB2 := fun h v => by
          simpa [savedHere] using (hB2x h).1 v
        have hB3 := fun h => (hB2x h).2.1
        have hB4 := fun h => (hB2x h).2.2
        have hmono2 := (crawlRun_sane host outputDir svc sinkFails fuel
          (.items rest (.str c))
          (itemStep host outputDir svc sinkFails fuel item (.str c) vis).visited).1.mono
        cases item with
        | obj fs1 =>
          have hunf : extractLinksI (Json.obj fs1 :: rest)
              = extractLinksF fs1 ++ extractLinksI rest := by simp [extractLinksI]
          have hex_sub : exTask host svc start (.fields fs1 (.str c)) := by
            refine ⟨c, rfl, ?_⟩
            intro s hs
            apply hcond s
            rw [hunf]
            exact List.mem_append.mpr (Or.inl hs)
          obtain ⟨jh1, jh2⟩ := IH (.fields fs1 (.str c)) vis hex_sub
          obtain ⟨hc1, hcc⟩ := exact_seq_aux start
            (extractLinksF fs1) (extractLinksI rest)
            jh1
            (fun h v => by simpa [savedHere] using (jh2 h).1 v)
            (fun h => (jh2 h).2.1)
            (fun h => (jh2 h).2.2)
            hB1 hB2 hB3 hB4 hmono2
          refine ⟨hc1, ?_⟩
          intro hstn
          obtain ⟨e2, done, closed⟩ := hcc hstn
          refine ⟨fun v => by simpa [savedHere] using e2 v, ?_, closed⟩
          show ∀ s ∈ extractLinksI (Json.obj fs1 :: rest), urljoin host s ∈ _
          rw [hunf]
          exact done
        | str s2 =>
          have hunf : extractLinksI (Json.str s2 :: rest)
              = [] ++ extractLinksI rest := by simp [extractLinksI]
          obtain ⟨hc1, hcc⟩ := exact_seq_aux start
            ([]) (extractLinksI rest)
            (fun v hv => by simp [itemStep, countE] at hv)
            (fun _ v => by simp [fieldStep, countE])
            (fun _ s hs => absurd hs (List.not_mem_nil _))
            (fun _ v fs2 hsv => by simp [itemStep] at hsv)
            hB1 hB2 hB3 hB4 hmono2
          refine ⟨hc1, ?_⟩
          intro hstn
          obtain ⟨e2, done, closed⟩ := hcc hstn
          refine ⟨fun v => by simpa [savedHere] using e2 v, ?_, closed⟩
          show ∀ s ∈ extractLinksI (Json.str s2 :: rest), urljoin host s ∈ _
          rw [hunf]
          exact done
        | arr es1 =>
          have hunf : extractLinksI (Json.arr es1 :: rest)
              = [] ++ extractLinksI rest := by simp [extractLinksI]
          obtain ⟨hc1, hcc⟩ := exact_seq_aux start
            ([]) (extractLinksI rest)
            (fun v hv => by simp [itemStep, countE] at hv)
            (fun _ v => by simp [fieldStep, countE])
            (fun _ s hs => absurd hs (List.not_mem_nil _))
            (fun _ v fs2 hsv => by simp [itemStep] at hsv)
            hB1 hB2 hB3 hB4 hmono2
          refine ⟨hc1, ?_⟩
          intro hstn
          obtain ⟨e2, done, closed⟩ := hcc hstn
          refine ⟨fun v => by simpa [savedHere] using e2 v, ?_, closed⟩
          show ∀ s ∈ extractLinksI (Json.arr es1 :: rest), urljoin host s ∈ _
          rw [hunf]
          exact done
        | num m =>
          have hunf : extractLinksI (Json.num m :: rest)
              = [] ++ extractLinksI rest := by simp [extractLinksI]
          obtain ⟨hc1, hcc⟩ := exact_seq_aux start
            ([]) (extractLinksI rest)
            (fun v hv => by simp [itemStep, countE] at hv)
            (fun _ v => by simp [fieldStep, countE])
            (fun _ s hs => absurd hs (List.not_mem_nil _))
            (fun _ v fs2 hsv => by simp [itemStep] at hsv)
            hB1 hB2 hB3 hB4 hmono2
          refine ⟨hc1, ?_⟩
          intro hstn
          obtain ⟨e2, done, closed⟩ := hcc hstn
          refine ⟨fun v => by simpa [savedHere] using e2 v, ?_, closed⟩
          show ∀ s ∈ extractLinksI (Json.num m :: rest), urljoin host s ∈ _
          rw [hunf]
          exact done
        | boolean b =>
          have hunf : extractLinksI (Json.boolean b :: rest)
              = [] ++ extractLinksI rest := by simp [extractLinksI]
          obtain ⟨hc1, hcc⟩ := exact_seq_aux start
            ([]) (extractLinksI rest)
            (fun v hv => by simp [itemStep, countE] at hv)
            (fun _ v => by simp [fieldStep, countE])
            (fun _ s hs => absurd hs (List.not_mem_nil _))
            (fun _ v fs2 hsv => by simp [itemStep] at hsv)
            hB1 hB2 hB3 hB4 hmono2
          refine ⟨hc1, ?_⟩
          intro hstn
          obtain ⟨e2, done, closed⟩ := hcc hstn
          refine ⟨fun v => by simpa [savedHere] using e2 v, ?_, closed⟩
          show ∀ s ∈ extractLinksI (Json.boolean b :: rest), urljoin host s ∈ _
          rw [hunf]
          exact done
        | null =>
          have hunf : extractLinksI (Json.null :: rest)
              = [] ++ extractLinksI rest := by simp [extractLinksI]
          obtain ⟨hc1, hcc⟩ := exact_seq_aux start
            ([]) (extractLinksI rest)
            (fun v hv => by simp [itemStep, countE] at hv)
            (fun _ v => by simp [fieldStep, countE])
            (fun _ s hs => absurd hs (List.not_mem_nil _))
            (fun _ v fs2 hsv => by simp [itemStep] at hsv)
            hB1 hB2 hB3 hB4 hmono2
          refine ⟨hc1, ?_⟩
          intro hstn
          obtain ⟨e2, done, closed⟩ := hcc hstn
          refine ⟨fun v => by simpa [savedHere] using e2 v, ?_, closed⟩
          show ∀ s ∈ extractLinksI (Json.null :: rest), urljoin host s ∈ _
          rw [hunf]
          exact done

/-- C6 (confirmed): the identifier-to-storage-path mapping is a pure,
deterministic function of the identifier (and the fixed output directory):
equal identifiers always resolve to equal paths, and the identifier
`/redfish/v1/Chassis/1` (full URL `https://h/redfish/v1/Chassis/1`) resolves
to `redfish_mock_data/Chassis/1/index.json`, on this run and on every
re-crawl. -/
theorem c6_save_path_deterministic :
    (∀ outputDir u1 u2 : String, u1 = u2 → savePath outputDir u1 = savePath outputDir u2) ∧
    savePath "redfish_mock_data" "https://h/redfish/v1/Chassis/1"
      = "redfish_mock_data/Chassis/1/index.json" :=
  ⟨fun _ _ _ h => by rw [h], by decide⟩

/-! ### Exact fetch counts (claim C8) -/

theorem status_normal_of_ne {r : Res} (h1 : r.status ≠ .crashed)
    (h2 : r.status ≠ .fuelOut) : r.status = .normal := by
  cases h : r.status with
  | normal => rfl
  | crashed => exact absurd h h1
  | fuelOut => exact absurd h h2

theorem c8hyp_safe (host : String) {svc : List (String × Resp)}
    (hh : C8Hyp host svc) : safeSvc svc := by
  intro p hp s d hpd
  obtain ⟨fs, cur, hresp, hfield, _⟩ := hh p hp
  rw [hpd] at hresp
  have hd : d = Json.obj fs := by
    injection hresp with h1 h2
    injection h2
  refine ⟨fs, hd, ?_⟩
  intro v hv
  rw [hfield] at hv
  injection hv with h4
  exact ⟨cur, h4.symm⟩

theorem termCond_start {svc : List (String × Resp)} (host u : String) {fuel : Nat}
    (hfuel : fuelBound svc ≤ fuel) : termCond host svc fuel (.res u) [] := by
  refine ⟨List.not_mem_nil _, ?_⟩
  have h1 : nFresh svc [] ≤ svc.length := nFresh_le_length svc []
  have hA : (maxDoc svc + 4) * (nFresh svc [] + 1)
      ≤ (maxDoc svc + 4) * (svc.length + 1) :=
    Nat.mul_le_mul_left _ (by omega)
  have hB : (maxDoc svc + 4) * (svc.length + 1) + 2 = fuelBound svc := rfl
  omega

/-- C8 (confirmed): with every served document an HTTP 200 JSON object
carrying a string `@odata.id`, every candidate link resolving to a served
URL (all fetches succeed) and passing the scope filter (all links in
scope), a crawl from a served start resource with sufficient fuel ends
normally — the recursion terminates — and its fetch log is exact: every
reachable identifier is fetched exactly once, and an unreachable identifier
is never fetched. On a purely acyclic graph with N distinct reachable
identifiers this is exactly N fetches (the acyclicity assumption is not
even needed). -/
theorem c8_acyclic_exact_fetches (host outputDir start : String)
    (svc : List (String × Resp)) (sinkFails : String → Bool) (fuel : Nat)
    (hsk : ∀ p, sinkFails p = false) (hh : C8Hyp host svc)
    (hstart : (lookupSvc svc (urljoin host start)).isSome = true)
    (hfuel : fuelBound svc ≤ fuel) :
    (crawl host outputDir svc sinkFails fuel start).status = .normal ∧
    (∀ v, Reach host svc start v →
      countE (Event.fetch v)
        (crawl host outputDir svc sinkFails fuel start).events = 1) ∧
    (∀ v, ¬ Reach host svc start v →
      countE (Event.fetch v)
        (crawl host outputDir svc sinkFails fuel start).events = 0) := by
  rw [show crawl host outputDir svc sinkFails fuel start
      = crawlRun host outputDir svc sinkFails fuel (Task.res start) [] from rfl]
  have hnc := crawlRun_no_crash host outputDir svc sinkFails hsk
    (c8hyp_safe host hh) fuel (.res start) [] trivial
  have hnf := crawlRun_no_fuelOut host outputDir svc sinkFails fuel (.res start) []
    (termCond_start host start hfuel)
  have hnormal := status_normal_of_ne hnc hnf
  obtain ⟨hsound, hrest⟩ := crawlRun_exact host outputDir svc sinkFails start
    hsk hh fuel (.res start) [] ⟨Reach.base, hstart⟩
  obtain ⟨hpair, hdone, hclosed⟩ := hrest hnormal
  have hsane := (crawlRun_sane host outputDir svc sinkFails fuel (.res start) []).1
  have hreachVis : ∀ v, Reach host svc start v →
      v ∈ (crawlRun host outputDir svc sinkFails fuel (Task.res start) []).visited := by
    intro v hr
    induction hr with
    | base => exact hdone
    | step hru hlu hs ih =>
      rename_i u d s
      have hsave : Event.save u
          ∈ (crawlRun host outputDir svc sinkFails fuel (Task.res start) []).events := by
        rcases hsane.vnew u ih with h | h
        · exact absurd h (List.not_mem_nil _)
        · exact h
      obtain ⟨fs2, cur, hresp, _, _⟩ :=
        hh (u, Resp.http 200 (Body.json d)) (lookupSvc_mem hlu)
      have hd : d = Json.obj fs2 := by
        injection hresp with h1 h2
        injection h2
      subst hd
      exact hclosed u fs2 hsave hlu s hs
  refine ⟨hnormal, ?_, ?_⟩
  · intro v hr
    have hvis := hreachVis v hr
    rcases hsane.vnew v hvis with h | h
    · exact absurd h (List.not_mem_nil _)
    · have hs1 : 0 < countE (Event.save v)
          (crawlRun host outputDir svc sinkFails fuel (Task.res start) []).events :=
        countE_pos.mpr h
      have hs2 := hsane.saveOnce v
      have hp := hpair v
      have hsh : savedHere (Task.res start) v = 0 := rfl
      omega
  · intro v hnr
    by_contra hne
    exact hnr (hsound v (Nat.pos_of_ne_zero hne))

theorem c8_witness :
    (crawl "h" "out" svcC8 (fun _ => false) (fuelBound svcC8)
        "/redfish/v1/K").status = .normal ∧
    countE (Event.fetch (urljoin "h" "/redfish/v1/K/a"))
      (crawl "h" "out" svcC8 (fun _ => false) (fuelBound svcC8)
        "/redfish/v1/K").events = 1 := by
  have hh : C8Hyp "h" svcC8 := by
    intro p hp
    simp only [svcC8, List.mem_cons, List.not_mem_nil, or_false] at hp
    rcases hp with h | h | h <;> subst h
    · refine ⟨_, "/redfish/v1/K", rfl, rfl, ?_⟩
      intro s hs
      simp [extractLinksF] at hs
      rcases hs with ⟨h1, h⟩ | ⟨h1, h⟩ | ⟨h1, h⟩ <;> subst h <;> exact ⟨by decide, by decide⟩
    · refine ⟨_, "/redfish/v1/K/a", rfl, rfl, ?_⟩
      intro s hs
      simp [extractLinksF] at hs
      obtain ⟨h1, hs⟩ := hs
      subst hs
      exact ⟨by decide, by decide⟩
    · refine ⟨_, "/redfish/v1/K/b", rfl, rfl, ?_⟩
      intro s hs
      simp [extractLinksF] at hs
      obtain ⟨h1, hs⟩ := hs
      subst hs
      exact ⟨by decide, by decide⟩
  have h := c8_acyclic_exact_fetches "h" "out" "/redfish/v1/K" svcC8
    (fun _ => false) (fuelBound svcC8) (fun _ => rfl) hh (by decide) le_rfl
  refine ⟨h.1, h.2.1 _ ?_⟩
  exact Reach.step Reach.base
    (show lookupSvc svcC8 (urljoin "h" "/redfish/v1/K")
        = some (.http 200 (.json (.obj
          [("@odata.id", .str "/redfish/v1/K"),
           ("A", .obj [("@odata.id", .str "/redfish/v1/K/a")]),
           ("B", .obj [("@odata.id", .str "/redfish/v1/K/b")])]))) from rfl)
    (by simp [extractLinks, extractLinksF]; decide)

end RedfishWalker
